import Mathlib

/-!
Shallow embedding of `plugins/aws/tools/model_gen.py`: the shape-to-model
compiler that walks a botocore service schema and emits `AwsModel`
descriptions with per-field mapping expressions.

Modelling conventions:
* A botocore `Shape` is a named node; `StructureShape` members, `ListShape`
  elements and `MapShape` key/value children are referenced *by name* and
  resolved through the `ServiceModel` (a finite list of shapes), which is how
  botocore's shape resolver works and what lets schemas be cyclic.
* `isinstance(s, StringShape)` holds in botocore exactly for shapes of
  type `"string"`, which we encode as the body `ShapeBody.leaf "string"`.
* Python exceptions (`NotImplementedError`, `AssertionError`) are an
  `Except GenError` result; since Lean functions must be total, recursion is
  driven by explicit fuel and running out of fuel is a distinguished error
  (the absence of which is proved separately).
* Name lookups that botocore performs eagerly (and which cannot fail there,
  because a loaded service model is closed) surface as the
  `GenError.unresolvedShape` error when a name is missing from the model.
-/

namespace ModelGen

/-- Structural kind of a schema shape together with its kind-specific
children (as shape names, resolved through the service model). A `leaf`
carries the botocore `type_name` (e.g. `"string"`, `"integer"`, `"blob"`). -/
inductive ShapeBody where
  | leaf (typeName : String)
  | struct (members : List (String × String))
  | list (member : String)
  | map (key : String) (value : String)
  deriving DecidableEq, Repr

/-- A schema shape: its schema-assigned name, its documentation text and its
structural body. -/
structure Shape where
  name : String
  documentation : String := ""
  body : ShapeBody
  deriving DecidableEq, Repr

/-- botocore `type_name` of a shape. -/
def Shape.type_name (s : Shape) : String :=
  match s.body with
  | .leaf t => t
  | .struct _ => "structure"
  | .list _ => "list"
  | .map _ _ => "map"

/-- A service model: the finite collection of shapes of one service. -/
abbrev ServiceModel := List Shape

/-- Resolve a shape name through the service model (botocore shape
resolution). -/
def resolve (model : ServiceModel) (n : String) : Option Shape :=
  model.find? (fun s => s.name == n)

/-- `AwsProperty` from the source: one field of a generated model.
`from_name` is `Union[str, List[str]]` in Python, embedded as a sum. -/
structure AwsProperty where
  name : String
  from_name : String ⊕ List String
  type : String
  description : String
  is_array : Bool := false
  is_complex : Bool := false
  field_default : Option String := none
  extractor : Option String := none
  deriving DecidableEq, Repr

/-- `AwsProperty.assignment`. Python's `self.field_default or (...)` treats
the empty string as falsy. -/
def AwsProperty.assignment (p : AwsProperty) : String :=
  let fallback := if p.is_array then "factory=list" else "default=None"
  let default :=
    match p.field_default with
    | some s => if s = "" then fallback else s
    | none => fallback
  "field(" ++ default ++ ")"

/-- `AwsProperty.type_string`. -/
def AwsProperty.type_string (p : AwsProperty) : String :=
  if p.is_array then "List[" ++ p.type ++ "]" else "Optional[" ++ p.type ++ "]"

/-- `AwsProperty.mapping`: the synthesized extraction expression for the
field, unless an explicit extractor overrides it. -/
def AwsProperty.mapping (p : AwsProperty) : String :=
  match p.extractor with
  | some e => "\"" ++ p.name ++ "\": " ++ e
  | none =>
    let from_p := match p.from_name with
      | .inl s => [s]
      | .inr l => l
    let from_p_path := String.intercalate "," (from_p.map (fun s => "\"" ++ s ++ "\""))
    let base := "\"" ++ p.name ++ "\": S(" ++ from_p_path
    if p.is_array && p.is_complex then
      base ++ ", default=[]) >> ForallBend(" ++ p.type ++ ".mapping)"
    else if p.is_array then
      base ++ ", default=[])"
    else if p.is_complex then
      base ++ ") >> Bend(" ++ p.type ++ ".mapping)"
    else
      base ++ ")"

/-- `AwsModel` from the source: one generated class description. -/
structure AwsModel where
  name : String
  props : List AwsProperty
  aggregate_root : Bool
  base_class : Option String := none
  api_info : Option (String × String × String) := none
  deriving DecidableEq, Repr

/-- `AwsResotoModel` from the source: per-API-call root specification.
The Python `prefix`/`prop_prefix` fields are named `pfx`/`prop_pfx` here
(`prefix` is a Lean keyword). -/
structure AwsResotoModel where
  api_action : String
  result_property : String
  result_shape : String
  pfx : Option String := none
  prop_pfx : Option String := none
  name : Option String := none
  base : Option String := none
  deriving DecidableEq, Repr

/-! ## `to_snake`: the three ordered regex rewrites -/

theorem length_dropWhile_le {α} (p : α → Bool) (l : List α) :
    (l.dropWhile p).length ≤ l.length := by
  induction l with
  | nil => simp [List.dropWhile]
  | cons a l ih =>
    by_cases h : p a
    · simp only [List.dropWhile_cons, h, if_true, List.length_cons]
      omega
    · simp [List.dropWhile_cons, h]

def isUpperAZ (c : Char) : Bool := 'A' ≤ c && c ≤ 'Z'
def isLowerAZ (c : Char) : Bool := 'a' ≤ c && c ≤ 'z'
def isLowerDigit (c : Char) : Bool := isLowerAZ c || ('0' ≤ c && c ≤ '9')

/-- `re.sub("(.)([A-Z][a-z]+)", r"\1_\2", _)`: left-to-right non-overlapping
scan; a match is any character, an uppercase letter and a maximal nonempty
run of lowercase letters; scanning resumes after the matched text. The
recursion is driven structurally by fuel so that evaluation is
kernel-reducible; every step consumes at least one character and one unit of
fuel, so fuel equal to the input length always suffices and the fuel-out
branch is unreachable from `sub1`. -/
def sub1F : Nat → List Char → List Char
  | 0, l => l
  | fuel + 1, l =>
    match l with
    | c1 :: c2 :: c3 :: rest =>
      if isUpperAZ c2 && isLowerAZ c3 then
        c1 :: '_' :: c2 :: c3 ::
          (rest.takeWhile isLowerAZ ++ sub1F fuel (rest.dropWhile isLowerAZ))
      else
        c1 :: sub1F fuel (c2 :: c3 :: rest)
    | _ => l

def sub1 (l : List Char) : List Char := sub1F l.length l

/-- `re.sub("__([A-Z])", r"_\1", _)`. -/
def sub2F : Nat → List Char → List Char
  | 0, l => l
  | fuel + 1, l =>
    match l with
    | '_' :: '_' :: c :: rest =>
      if isUpperAZ c then '_' :: c :: sub2F fuel rest
      else '_' :: sub2F fuel ('_' :: c :: rest)
    | c :: rest => c :: sub2F fuel rest
    | [] => []

def sub2 (l : List Char) : List Char := sub2F l.length l

/-- `re.sub("([a-z0-9])([A-Z])", r"\1_\2", _)`. -/
def sub3F : Nat → List Char → List Char
  | 0, l => l
  | fuel + 1, l =>
    match l with
    | c1 :: c2 :: rest =>
      if isLowerDigit c1 && isUpperAZ c2 then c1 :: '_' :: c2 :: sub3F fuel rest
      else c1 :: sub3F fuel (c2 :: rest)
    | _ => l

def sub3 (l : List Char) : List Char := sub3F l.length l

/-- `to_snake` from the source: the three rewrites followed by
lower-casing. -/
def to_snake (name : String) : String :=
  String.mk ((sub3 (sub2 (sub1 name.toList))).map Char.toLower)

/-- `base_mapping` from `AwsModel.to_class`: the fixed identity/tag/time
mapping entries every aggregate root receives, in the order the source dict
lists them. -/
def base_mapping : List (String × String) :=
  [("id", "S(\"id\")"),
   ("tags", "S(\"Tags\", default=[]) >> TagsToDict()"),
   ("name", "S(\"Tags\", default=[]) >> TagsValue(\"Name\")"),
   ("ctime", "K(None)"),
   ("mtime", "K(None)"),
   ("atime", "K(None)")]

/-- `AwsModel.to_class`: render the class declaration text. Kept for the
root-augmentation property; the rendering itself is declared out of scope by
the specification. Python's `", " + self.base_class if self.base_class else
""` again treats the empty string as falsy. -/
def AwsModel.to_class (m : AwsModel) : String :=
  let bc := match m.base_class with
    | some b => if b = "" then "" else ", " ++ b
    | none => ""
  let base := if m.aggregate_root then "(AwsResource" ++ bc ++ "):" else ":"
  let kind := "    kind: ClassVar[str] = \"aws_" ++ to_snake (m.name.drop 3) ++ "\""
  let api := match m.api_info with
    | some (srv, act, res) =>
      "    api_info: ClassVar[AwsApiSpec] = AwsApiSpec(\"" ++ srv ++ "\", \""
        ++ act ++ "\", \"" ++ res ++ "\")\n"
    | none => ""
  let mapping := "    mapping: ClassVar[Dict[str, Bender]] = \x7b\n"
    ++ (if m.aggregate_root then
          String.intercalate ",\n"
            (base_mapping.map (fun kv => "        \"" ++ kv.1 ++ "\": " ++ kv.2)) ++ ",\n"
        else "")
    ++ String.intercalate ",\n" (m.props.map (fun pr => "        " ++ pr.mapping))
    ++ "\n    \x7d"
  let props := String.intercalate "\n"
    (m.props.map (fun pr => "    " ++ pr.name ++ ": " ++ pr.type_string ++ " = " ++ pr.assignment))
  "@define(eq=False, slots=False)\nclass " ++ m.name ++ base ++ "\n" ++ kind ++ "\n"
    ++ api ++ mapping ++ "\n" ++ props ++ "\n"

/-! ## Type normalization -/

/-- ASCII `str.lower()` on the character data (equivalent to
`String.toLower`, stated on `data` so that it evaluates by `rfl`). -/
def lowerStr (s : String) : String := String.mk (s.data.map Char.toLower)

/-- `simple_type_map` with its lower-cased duplicate entries. -/
def simple_type_map : List (String × String) :=
  let base : List (String × String) :=
    [("Long", "int"), ("Float", "float"), ("Double", "float"),
     ("Integer", "int"), ("Boolean", "bool"), ("String", "str"),
     ("DateTime", "datetime"), ("Timestamp", "datetime"),
     ("TagsMap", "Dict[str, str]"), ("MillisecondDateTime", "datetime")]
  base ++ base.map (fun kv => (lowerStr kv.1, kv.2))

/-- `simple_type_map.get`. -/
def lookupSimple (n : String) : Option String :=
  (simple_type_map.find? (fun kv => kv.1 == n)).map (fun kv => kv.2)

/-- `simple_shape` (nested in `clazz_model`): `StringShape` instances map to
`"str"`, otherwise the shape's name and then its `type_name` are looked up
in `simple_type_map`. -/
def simple_shape (s : Shape) : Option String :=
  if s.body = ShapeBody.leaf "string" then some "str"
  else match lookupSimple s.name with
    | some simple => some simple
    | none => lookupSimple s.type_name

/-- Python renders `f"Aws{prefix}{s.name}"` with `prefix = None` as
`"AwsNone..."`; this is the string interpolation of an optional value. -/
def pyStrOpt : Option String → String
  | none => "None"
  | some s => s

/-- `type_name` (nested in `clazz_model`), for a given rendered prefix
string. -/
def typeNameWith (pfxStr : String) (s : Shape) : String :=
  match simple_shape s with
  | some spl => spl
  | none => "Aws" ++ pfxStr ++ s.name

/-- `complex_simple_shape` (nested in `clazz_model`): a structure shape with
exactly one member whose member shape is simple collapses to that member's
name and scalar type. The single member is resolved through the model (in
botocore it is an already-resolved `Shape`; an unresolvable name cannot
occur there and yields `none` here). -/
def complex_simple_shape (model : ServiceModel) (s : Shape) : Option (String × String) :=
  match s.body with
  | .struct [(p_name, p_shape_name)] =>
    match resolve model p_shape_name with
    | some p_shape =>
      match simple_shape p_shape with
      | some p_simple => some (p_name, p_simple)
      | none => none
    | none => none
  | _ => none

/-- `ignore_props`. -/
def ignore_props : List String := ["Tags", "tags"]

/-! ## The compiler -/

/-- The ways a compilation run can abort. `unsupportedShape` is Python's
`NotImplementedError`, `invalidMapKey` the `assert` on map key types,
`unresolvedShape` a missing name in the service model (impossible in
botocore's closed models), and `outOfFuel` marks exhaustion of the explicit
recursion fuel (shown unreachable for sufficient fuel). -/
inductive GenError where
  | unsupportedShape (s : Shape)
  | invalidMapKey (keyName : String)
  | unresolvedShape (n : String)
  | outOfFuel
  deriving DecidableEq, Repr

/-- The member loop of `clazz_model` (lines 165-223 of the source), with the
recursive call abstracted as `recur`. `p`/`pp` are the normalized
prefix/property-prefix strings. Processes the members in order, returning
the nested models discovered (in discovery order), the properties of the
record being compiled (in member order) and the final visited set. The
visited set is threaded explicitly; Python mutates one shared set. -/
def goMembers (model : ServiceModel) (p pp : String)
    (recur : Shape → List String → Except GenError (List AwsModel × List String)) :
    List (String × String) → List String →
    Except GenError (List AwsModel × List AwsProperty × List String)
  | [], visited => .ok ([], [], visited)
  | (name, msn) :: rest, visited =>
    let prop := to_snake name
    if ignore_props.contains prop then
      goMembers model p pp recur rest visited
    else
      match resolve model msn with
      | none => .error (.unresolvedShape msn)
      | some prop_shape =>
        match simple_shape prop_shape with
        | some simple => do
          let (ms, prs, v') ← goMembers model p pp recur rest visited
          .ok (ms, AwsProperty.mk (pp ++ prop) (.inl name) simple
                prop_shape.documentation false false none none :: prs, v')
        | none =>
          match prop_shape.body with
          | .list inner_name =>
            (match resolve model inner_name with
            | none => .error (.unresolvedShape inner_name)
            | some inner =>
              match simple_shape inner with
              | some simple => do
                let (ms, prs, v') ← goMembers model p pp recur rest visited
                .ok (ms, AwsProperty.mk (pp ++ prop) (.inl name) simple
                      prop_shape.documentation true false none none :: prs, v')
              | none =>
                match complex_simple_shape model inner with
                | some simple_path => do
                  let (ms, prs, v') ← goMembers model p pp recur rest visited
                  .ok (ms, AwsProperty.mk (pp ++ prop) (.inr [name, simple_path.1])
                        simple_path.2 prop_shape.documentation true false none
                        (some ("S(\"" ++ name ++ "\", default=[]) >> ForallBend(S(\""
                          ++ simple_path.1 ++ "\"))")) :: prs, v')
                | none => do
                  let (ms₁, v₁) ← recur inner visited
                  let (ms₂, prs, v₂) ← goMembers model p pp recur rest v₁
                  .ok (ms₁ ++ ms₂, AwsProperty.mk (pp ++ prop) (.inl name)
                        (typeNameWith p inner) prop_shape.documentation true true
                        none none :: prs, v₂))
          | .map key_name value_name =>
            (match resolve model key_name, resolve model value_name with
            | some key, some value =>
              (match simple_shape key with
              | none => .error (.invalidMapKey key.name)
              | some key_type => do
                let value_type := typeNameWith p value
                let (ms₁, v₁) ← recur value visited
                let (ms₂, prs, v₂) ← goMembers model p pp recur rest v₁
                .ok (ms₁ ++ ms₂, AwsProperty.mk (pp ++ prop) (.inl name)
                      ("Dict[" ++ key_type ++ ", " ++ value_type ++ "]")
                      prop_shape.documentation false false none none :: prs, v₂))
            | none, _ => .error (.unresolvedShape key_name)
            | _, none => .error (.unresolvedShape value_name))
          | .struct _ =>
            (match complex_simple_shape model prop_shape with
            | some maybe_simple => do
              let (ms, prs, v') ← goMembers model p pp recur rest visited
              .ok (ms, AwsProperty.mk (pp ++ prop) (.inr [name, maybe_simple.1])
                    maybe_simple.2 prop_shape.documentation false false none none :: prs, v')
            | none => do
              let (ms₁, v₁) ← recur prop_shape visited
              let (ms₂, prs, v₂) ← goMembers model p pp recur rest v₁
              .ok (ms₁ ++ ms₂, AwsProperty.mk (pp ++ prop) (.inl name)
                    (typeNameWith p prop_shape) prop_shape.documentation false true
                    none none :: prs, v₂))
          | .leaf _ => .error (.unsupportedShape prop_shape)

/-- `clazz_model` from the source. The qualified type name of the shape is
checked against (and added to) `visited` before anything else; only
structure shapes yield a model, appended after all models discovered while
recursing into the members. Note that the visited check renders the
*unnormalized* `pfx` (Python interpolates `None` into the f-string before
`prefix = prefix or ""` runs), while everything after uses the normalized
prefix. Recursive calls pass only the normalized prefix, as in the source. -/
def clazz_model : Nat → ServiceModel → Shape → List String → Option String →
    Option String → Option String → Option String → Bool →
    Option (String × String × String) → Except GenError (List AwsModel × List String)
  | 0, _, _, _, _, _, _, _, _, _ => .error .outOfFuel
  | fuel + 1, model, shape, visited, pfx, prop_pfx, clazz_name, base_class,
      aggregate_root, api_info =>
    let tn0 := typeNameWith (pyStrOpt pfx) shape
    if visited.contains tn0 then .ok ([], visited)
    else
      let visited := tn0 :: visited
      let p := pfx.getD ""
      let pp := prop_pfx.getD ""
      match shape.body with
      | .struct members => do
        let (result, props, v') ← goMembers model p pp
          (fun s v => clazz_model fuel model s v (some p) none none none false none)
          members visited
        let cname := match clazz_name with
          | some s => if s = "" then typeNameWith p shape else s
          | none => typeNameWith p shape
        .ok (result ++ [AwsModel.mk cname props aggregate_root base_class api_info], v')
      | _ => .ok ([], visited)

/-- The inner loop of `all_models`: run every `AwsResotoModel` spec of one
service against its service model, threading the shared visited set and
appending results in order. -/
def run_specs (fuel : Nat) (svcName : String) (sm : ServiceModel) :
    List AwsResotoModel → List String → Except GenError (List AwsModel × List String)
  | [], visited => .ok ([], visited)
  | ep :: eps, visited => do
    let shape ← match resolve sm ep.result_shape with
      | some s => Except.ok s
      | none => Except.error (GenError.unresolvedShape ep.result_shape)
    let (ms, v₁) ← clazz_model fuel sm shape visited ep.pfx ep.prop_pfx ep.name
      ep.base true (some (svcName, ep.api_action, ep.result_property))
    let (ms₂, v₂) ← run_specs fuel svcName sm eps v₁
    .ok (ms ++ ms₂, v₂)

/-- `all_models` from the source, parameterized by the configuration table
(the global `models` dict) paired with the externally fetched service model
of each service (`service_model(name)` performs boto3 I/O and is out of
scope; its result is an input here). One `visited` set and one result list
are shared across the entire run. -/
def all_models (fuel : Nat) :
    List (String × ServiceModel × List AwsResotoModel) → List String →
    Except GenError (List AwsModel × List String)
  | [], visited => .ok ([], visited)
  | (svcName, sm, eps) :: services, visited => do
    let (ms, v₁) ← run_specs fuel svcName sm eps visited
    let (ms₂, v₂) ← all_models fuel services v₁
    .ok (ms ++ ms₂, v₂)

/-! ## Derived notions used to state the claims -/

/-- A shape is "unsupported" when it is a leaf that does not normalize to a
scalar (Python's `else: raise NotImplementedError`). -/
def unsupportedIn (model : ServiceModel) (sh : Shape) : Prop :=
  sh ∈ model ∧ (∃ t, sh.body = ShapeBody.leaf t) ∧ simple_shape sh = none

/-- A map shape of the schema whose key shape named `n` does not normalize
to a scalar (the only way the assertion can fire). -/
def badMapKeyIn (model : ServiceModel) (n : String) : Prop :=
  ∃ s ∈ model, ∃ kn vn, s.body = ShapeBody.map kn vn ∧
    ∃ key, resolve model kn = some key ∧ key.name = n ∧ simple_shape key = none

/-- All scalar type names `simple_shape` can return. -/
def scalarKeys : List String :=
  ["int", "float", "bool", "str", "datetime", "Dict[str, str]"]

/-- The finite pool of qualified type names `clazz_model` can add to
`visited` when recursing with normalized prefix `p`: scalar names plus one
`Aws`-qualified name per shape of the service model. -/
def candidateNames (model : ServiceModel) (p : String) : List String :=
  scalarKeys ++ model.map (fun s => "Aws" ++ p ++ s.name)

/-- How many candidate names are not yet visited: the termination measure of
the recursion. -/
def missingCount (model : ServiceModel) (p : String) (visited : List String) : Nat :=
  ((candidateNames model p).filter (fun n => !(visited.contains n))).length

/-- Whether a result is the fuel-exhaustion marker (the only effect of the
fuel instrumentation; Python has no counterpart to it). -/
def isOutOfFuel {α : Type} : Except GenError α → Bool
  | .error .outOfFuel => true
  | _ => false

/-- Strip an expected prefix from character data. -/
def stripPre (p t : List Char) : Option (List Char) :=
  if t.take p.length = p then some (t.drop p.length) else none

/-- Strip an expected suffix from character data. -/
def stripSuffix (s t : List Char) : Option (List Char) :=
  if s.length ≤ t.length ∧ t.drop (t.length - s.length) = s then
    some (t.take (t.length - s.length))
  else none

/-- One parse attempt of a rendered `Dict[key, value]` type string against a
fixed scalar key name. -/
def dictEntry (t : String) (kt : String) : Option (List Char) :=
  (stripPre ("Dict[" ++ kt ++ ", ").data t.data).bind (stripSuffix [']'])

/-- The value-type name inside a rendered `Dict[key, value]` type string,
trying each scalar key name (the only keys the compiler ever renders). -/
def dictValueType (t : String) : Option String :=
  (scalarKeys.findSome? (dictEntry t)).map (fun cs => String.mk cs)

/-- The generated-model name a field's `value_type` mentions, if any:
`is_complex` fields (plain and array-of-model) name their type directly;
map fields name the value type inside `Dict[...]`. -/
def refOf (pr : AwsProperty) : Option String :=
  if pr.is_complex then some pr.type else dictValueType pr.type

/-- Whether a name is `Aws`-qualified, i.e. can name a generated model
(scalar type names never are). -/
def isAwsName (n : String) : Bool := n.data.take 3 == ['A', 'w', 's']

/-- The field `pr` references the generated-model name `T`. -/
def PropRef (pr : AwsProperty) (T : String) : Prop :=
  refOf pr = some T ∧ isAwsName T = true

/-- Schema regularity for the dedup/no-dangling invariant: a list element
that is neither simple nor collapsible is a record, and a map value is
simple or a record. (Without this, e.g. a list-of-list member makes the
compiler emit a dangling `is_complex` reference, see the counterexample.) -/
def regularModel (model : ServiceModel) : Prop :=
  ∀ s ∈ model,
    (∀ mn, s.body = ShapeBody.list mn → ∀ inner, resolve model mn = some inner →
      simple_shape inner = none → complex_simple_shape model inner = none →
      ∃ sm, inner.body = ShapeBody.struct sm) ∧
    (∀ kn vn, s.body = ShapeBody.map kn vn → ∀ value, resolve model vn = some value →
      simple_shape value = none → ∃ sm, value.body = ShapeBody.struct sm)

/-- Invariant of the member loop relative to the entry visited set: the
visited set grows, newly produced model names are fresh, pairwise distinct
and recorded in the final visited set, every newly visited `Aws` name has a
produced model, and every reference of any produced or emitted field
resolves inside the final visited set. -/
structure MStat (p : String) (visited v' : List String)
    (ms : List AwsModel) (prs : List AwsProperty) : Prop where
  sub : visited ⊆ v'
  nodup : (ms.map AwsModel.name).Nodup
  names : ∀ m ∈ ms, m.name ∈ v' ∧ m.name ∉ visited
  newAws : ∀ n ∈ v', n ∉ visited → isAwsName n = true → ∃ m ∈ ms, m.name = n
  deepRefs : ∀ m ∈ ms, ∀ pr ∈ m.props, ∀ T, PropRef pr T → T ∈ v'
  propRefs : ∀ pr ∈ prs, ∀ T, PropRef pr T → T ∈ v'

/-- The corresponding invariant of one `clazz_model` call (with normalized
prefix and no class-name override). -/
structure CStat (p : String) (shape : Shape) (visited v' : List String)
    (ms : List AwsModel) : Prop where
  sub : visited ⊆ v'
  tnMem : typeNameWith p shape ∈ v'
  nodup : (ms.map AwsModel.name).Nodup
  names : ∀ m ∈ ms, m.name ∈ v' ∧ m.name ∉ visited
  newAws : ∀ n ∈ v', n ∉ visited → isAwsName n = true → ∃ m ∈ ms, m.name = n
  deepRefs : ∀ m ∈ ms, ∀ pr ∈ m.props, ∀ T, PropRef pr T → T ∈ v'

/-- Run-level invariant tying the accumulated output to the shared visited
set. -/
structure RunInv (visited : List String) (acc : List AwsModel) : Prop where
  nodup : (acc.map AwsModel.name).Nodup
  names : ∀ m ∈ acc, m.name ∈ visited
  aws : ∀ n ∈ visited, isAwsName n = true → ∃ m ∈ acc, m.name = n
  refs : ∀ m ∈ acc, ∀ pr ∈ m.props, ∀ T, PropRef pr T → T ∈ visited

/-! ## General lemmas -/

theorem except_bind_ok {α β : Type} (x : Except GenError α) (f : α → Except GenError β)
    (b : β) : (x >>= f) = .ok b ↔ ∃ a, x = .ok a ∧ f a = .ok b := by
  cases x <;> simp [Bind.bind, Except.bind]

theorem except_bind_err {α β : Type} (x : Except GenError α) (f : α → Except GenError β)
    (e : GenError) :
    (x >>= f) = .error e ↔ x = .error e ∨ ∃ a, x = .ok a ∧ f a = .error e := by
  cases x <;> simp [Bind.bind, Except.bind]

theorem resolve_mem {model : ServiceModel} {n : String} {s : Shape}
    (h : resolve model n = some s) : s ∈ model :=
  List.mem_of_find?_eq_some h

theorem goMembers_unsupported_inv (model : ServiceModel) (p pp : String)
    (recur : Shape → List String → Except GenError (List AwsModel × List String))
    (hrec : ∀ s v sh, recur s v = .error (.unsupportedShape sh) → unsupportedIn model sh) :
    ∀ (mems : List (String × String)) (visited : List String) (sh : Shape),
      goMembers model p pp recur mems visited = .error (.unsupportedShape sh) →
      unsupportedIn model sh := by
  intro mems
  induction mems with
  | nil => intro visited sh h; simp [goMembers] at h
  | cons m rest ih =>
    obtain ⟨name, msn⟩ := m
    intro visited sh h
    simp only [goMembers] at h
    split at h
    · exact ih _ _ h
    · split at h
      · simp at h
      · rename_i prop_shape hres
        split at h
        · rw [except_bind_err] at h
          rcases h with h | ⟨a, _, ha⟩
          · exact ih _ _ h
          · simp at ha
        · split at h
          · -- list member
            split at h
            · simp at h
            · rename_i inner hinner
              split at h
              · rw [except_bind_err] at h
                rcases h with h | ⟨a, _, ha⟩
                · exact ih _ _ h
                · simp at ha
              · split at h
                · rw [except_bind_err] at h
                  rcases h with h | ⟨a, _, ha⟩
                  · exact ih _ _ h
                  · simp at ha
                · rw [except_bind_err] at h
                  rcases h with h | ⟨a, _, h⟩
                  · exact hrec _ _ _ h
                  · rw [except_bind_err] at h
                    rcases h with h | ⟨b, _, hb⟩
                    · exact ih _ _ h
                    · simp at hb
          · -- map member
            split at h
            · rename_i key value hk hv
              split at h
              · simp at h
              · rw [except_bind_err] at h
                rcases h with h | ⟨a, _, h⟩
                · exact hrec _ _ _ h
                · rw [except_bind_err] at h
                  rcases h with h | ⟨b, _, hb⟩
                  · exact ih _ _ h
                  · simp at hb
            · simp at h
            · simp at h
          · -- structure member
            split at h
            · rw [except_bind_err] at h
              rcases h with h | ⟨a, _, ha⟩
              · exact ih _ _ h
              · simp at ha
            · rw [except_bind_err] at h
              rcases h with h | ⟨a, _, h⟩
              · exact hrec _ _ _ h
              · rw [except_bind_err] at h
                rcases h with h | ⟨b, _, hb⟩
                · exact ih _ _ h
                · simp at hb
          · -- leaf member: the raise site
            rename_i t hleaf
            injection h with h
            injection h with h
            subst h
            rename_i hss _
            exact ⟨resolve_mem hres, ⟨t, hleaf⟩, hss⟩

theorem goMembers_invalidKey_inv (model : ServiceModel) (p pp : String)
    (recur : Shape → List String → Except GenError (List AwsModel × List String))
    (hrec : ∀ s v n, recur s v = .error (.invalidMapKey n) → badMapKeyIn model n) :
    ∀ (mems : List (String × String)) (visited : List String) (n : String),
      goMembers model p pp recur mems visited = .error (.invalidMapKey n) →
      badMapKeyIn model n := by
  intro mems
  induction mems with
  | nil => intro visited n h; simp [goMembers] at h
  | cons m rest ih =>
    obtain ⟨name, msn⟩ := m
    intro visited n h
    simp only [goMembers] at h
    split at h
    · exact ih _ _ h
    · split at h
      · simp at h
      · rename_i prop_shape hres
        split at h
        · rw [except_bind_err] at h
          rcases h with h | ⟨a, _, ha⟩
          · exact ih _ _ h
          · simp at ha
        · split at h
          · split at h
            · simp at h
            · split at h
              · rw [except_bind_err] at h
                rcases h with h | ⟨a, _, ha⟩
                · exact ih _ _ h
                · simp at ha
              · split at h
                · rw [except_bind_err] at h
                  rcases h with h | ⟨a, _, ha⟩
                  · exact ih _ _ h
                  · simp at ha
                · rw [except_bind_err] at h
                  rcases h with h | ⟨a, _, h⟩
                  · exact hrec _ _ _ h
                  · rw [except_bind_err] at h
                    rcases h with h | ⟨b, _, hb⟩
                    · exact ih _ _ h
                    · simp at hb
          · rename_i kn vn hbody
            split at h
            · rename_i key value hk hv
              split at h
              · rename_i hkn
                injection h with h
                injection h with h
                exact ⟨prop_shape, resolve_mem hres, kn, vn, hbody, key, hk, h, hkn⟩
              · rw [except_bind_err] at h
                rcases h with h | ⟨a, _, h⟩
                · exact hrec _ _ _ h
                · rw [except_bind_err] at h
                  rcases h with h | ⟨b, _, hb⟩
                  · exact ih _ _ h
                  · simp at hb
            · simp at h
            · simp at h
          · split at h
            · rw [except_bind_err] at h
              rcases h with h | ⟨a, _, ha⟩
              · exact ih _ _ h
              · simp at ha
            · rw [except_bind_err] at h
              rcases h with h | ⟨a, _, h⟩
              · exact hrec _ _ _ h
              · rw [except_bind_err] at h
                rcases h with h | ⟨b, _, hb⟩
                · exact ih _ _ h
                · simp at hb
          · simp at h

theorem clazz_model_invalidKey_inv :
    ∀ (fuel : Nat) (model : ServiceModel) (shape : Shape) (visited : List String)
      (pfx pp cn bc : Option String) (ar : Bool) (api : Option (String × String × String))
      (n : String),
      clazz_model fuel model shape visited pfx pp cn bc ar api =
        .error (.invalidMapKey n) →
      badMapKeyIn model n := by
  intro fuel
  induction fuel with
  | zero => intro model shape visited pfx pp cn bc ar api n h; simp [clazz_model] at h
  | succ fuel ih =>
    intro model shape visited pfx pp cn bc ar api n h
    simp only [clazz_model] at h
    split at h
    · simp at h
    · split at h
      · rw [except_bind_err] at h
        rcases h with h | ⟨a, _, ha⟩
        · exact goMembers_invalidKey_inv model _ _ _
            (fun s v n' h' => ih model s v (some _) none none none false none n' h') _ _ _ h
        · simp at ha
      · simp at h

theorem clazz_model_unsupported_inv :
    ∀ (fuel : Nat) (model : ServiceModel) (shape : Shape) (visited : List String)
      (pfx pp cn bc : Option String) (ar : Bool) (api : Option (String × String × String))
      (sh : Shape),
      clazz_model fuel model shape visited pfx pp cn bc ar api =
        .error (.unsupportedShape sh) →
      unsupportedIn model sh := by
  intro fuel
  induction fuel with
  | zero => intro model shape visited pfx pp cn bc ar api sh h; simp [clazz_model] at h
  | succ fuel ih =>
    intro model shape visited pfx pp cn bc ar api sh h
    simp only [clazz_model] at h
    split at h
    · simp at h
    · split at h
      · rw [except_bind_err] at h
        rcases h with h | ⟨a, _, ha⟩
        · exact goMembers_unsupported_inv model _ _ _
            (fun s v sh' h' => ih model s v (some _) none none none false none sh' h') _ _ _ h
        · simp at ha
      · simp at h

/-- The visited set only grows through the member loop. -/
theorem goMembers_visited_mono (model : ServiceModel) (p pp : String)
    (recur : Shape → List String → Except GenError (List AwsModel × List String))
    (hrec : ∀ s v out, recur s v = .ok out → v ⊆ out.2) :
    ∀ (mems : List (String × String)) (visited : List String)
      (out : List AwsModel × List AwsProperty × List String),
      goMembers model p pp recur mems visited = .ok out → visited ⊆ out.2.2 := by
  intro mems
  induction mems with
  | nil =>
    intro visited out h
    simp only [goMembers, Except.ok.injEq] at h
    subst h; exact fun _ hx => hx
  | cons m rest ih =>
    obtain ⟨name, msn⟩ := m
    intro visited out h
    simp only [goMembers] at h
    split at h
    · exact ih _ _ h
    · split at h
      · simp at h
      · rename_i prop_shape hres
        split at h
        · rw [except_bind_ok] at h
          obtain ⟨a, ha, h⟩ := h
          injection h with h; subst h
          exact ih _ a ha
        · split at h
          · -- list member
            split at h
            · simp at h
            · rename_i inner hinner
              split at h
              · rw [except_bind_ok] at h
                obtain ⟨a, ha, h⟩ := h
                injection h with h; subst h
                exact ih _ a ha
              · split at h
                · rw [except_bind_ok] at h
                  obtain ⟨a, ha, h⟩ := h
                  injection h with h; subst h
                  exact ih _ a ha
                · rw [except_bind_ok] at h
                  obtain ⟨a, ha, h⟩ := h
                  rw [except_bind_ok] at h
                  obtain ⟨b, hb, h⟩ := h
                  injection h with h; subst h
                  exact fun x hx => ih _ b hb (hrec _ _ a ha hx)
          · -- map member
            split at h
            · split at h
              · simp at h
              · rw [except_bind_ok] at h
                obtain ⟨a, ha, h⟩ := h
                rw [except_bind_ok] at h
                obtain ⟨b, hb, h⟩ := h
                injection h with h; subst h
                exact fun x hx => ih _ b hb (hrec _ _ a ha hx)
            · simp at h
            · simp at h
          · -- structure member
            split at h
            · rw [except_bind_ok] at h
              obtain ⟨a, ha, h⟩ := h
              injection h with h; subst h
              exact ih _ a ha
            · rw [except_bind_ok] at h
              obtain ⟨a, ha, h⟩ := h
              rw [except_bind_ok] at h
              obtain ⟨b, hb, h⟩ := h
              injection h with h; subst h
              exact fun x hx => ih _ b hb (hrec _ _ a ha hx)
          · simp at h

/-- The visited set only grows through `clazz_model`. -/
theorem clazz_model_visited_mono :
    ∀ (fuel : Nat) (model : ServiceModel) (shape : Shape) (visited : List String)
      (pfx pp cn bc : Option String) (ar : Bool) (api : Option (String × String × String))
      (out : List AwsModel × List String),
      clazz_model fuel model shape visited pfx pp cn bc ar api = .ok out →
      visited ⊆ out.2 := by
  intro fuel
  induction fuel with
  | zero => intro model shape visited pfx pp cn bc ar api out h; simp [clazz_model] at h
  | succ fuel ih =>
    intro model shape visited pfx pp cn bc ar api out h
    simp only [clazz_model] at h
    split at h
    · injection h with h; subst h; exact fun _ hx => hx
    · split at h
      · rw [except_bind_ok] at h
        obtain ⟨⟨ms, props, v₂⟩, ha, h⟩ := h
        injection h with h; subst h
        have := goMembers_visited_mono _ _ _ _
          (fun s v o ho => ih model s v _ none none none false none o ho) _ _ _ ha
        exact fun x hx => this (List.mem_cons_of_mem _ hx)
      · injection h with h; subst h
        exact fun x hx => List.mem_cons_of_mem _ hx

theorem contains_true {l : List String} {a : String} (h : a ∈ l) :
    l.contains a = true :=
  List.elem_eq_true_of_mem h

theorem contains_false {l : List String} {a : String} (h : a ∉ l) :
    l.contains a = false := by
  cases hc : l.contains a
  · rfl
  · exact absurd (List.mem_of_elem_eq_true hc) h

theorem not_mem_of_contains_false {l : List String} {a : String}
    (h : l.contains a = false) : a ∉ l := by
  intro hm
  rw [contains_true hm] at h
  cases h

theorem lookupSimple_scalar {n t : String} (h : lookupSimple n = some t) :
    t ∈ scalarKeys := by
  unfold lookupSimple at h
  cases hf : simple_type_map.find? (fun kv => kv.1 == n) with
  | none => rw [hf] at h; simp at h
  | some kv =>
    rw [hf] at h
    have h2 : kv.2 = t := by simpa using h
    have hm : kv ∈ simple_type_map := List.mem_of_find?_eq_some hf
    have hall : ∀ kv ∈ simple_type_map, kv.2 ∈ scalarKeys := by decide
    rw [← h2]; exact hall kv hm

theorem simple_shape_scalar {s : Shape} {t : String} (h : simple_shape s = some t) :
    t ∈ scalarKeys := by
  unfold simple_shape at h
  split at h
  · injection h with h; rw [← h]; decide
  · split at h
    · rename_i simple hl
      injection h with h
      rw [h] at hl
      exact lookupSimple_scalar hl
    · exact lookupSimple_scalar h

theorem typeNameWith_mem_candidates {model : ServiceModel} {p : String} {s : Shape}
    (hs : s ∈ model) : typeNameWith p s ∈ candidateNames model p := by
  unfold typeNameWith
  cases hss : simple_shape s with
  | some t => exact List.mem_append_left _ (simple_shape_scalar hss)
  | none => exact List.mem_append_right _ (List.mem_map_of_mem _ hs)

theorem filter_length_anti {v v' : List String} (hsub : v ⊆ v') (l : List String) :
    (l.filter (fun n => !(v'.contains n))).length ≤
      (l.filter (fun n => !(v.contains n))).length := by
  induction l with
  | nil => simp
  | cons a l ih =>
    by_cases hma : a ∈ v'
    · by_cases hmv : a ∈ v
      · simp only [List.filter_cons, contains_true hma, contains_true hmv, Bool.not_true,
          if_neg Bool.false_ne_true]
        exact ih
      · simp only [List.filter_cons, contains_true hma, contains_false hmv, Bool.not_true,
          Bool.not_false, if_neg Bool.false_ne_true, if_pos rfl, List.length_cons]
        exact Nat.le_succ_of_le ih
    · have hmv : a ∉ v := fun hx => hma (hsub hx)
      simp only [List.filter_cons, contains_false hma, contains_false hmv, Bool.not_false,
        if_pos rfl, List.length_cons]
      exact Nat.succ_le_succ ih

theorem filter_length_strict {l v : List String} {tn : String}
    (hmem : tn ∈ l) (hnv : tn ∉ v) :
    (l.filter (fun n => !((tn :: v).contains n))).length <
      (l.filter (fun n => !(v.contains n))).length := by
  induction l with
  | nil => cases hmem
  | cons a l ih =>
    by_cases hat : a = tn
    · subst hat
      have h1 : (a :: v).contains a = true := contains_true (List.mem_cons_self a v)
      have h2 : v.contains a = false := contains_false hnv
      simp only [List.filter_cons, h1, h2, Bool.not_true, Bool.not_false,
        if_neg Bool.false_ne_true, if_pos rfl, if_true, List.length_cons]
      have hstep := @filter_length_anti v (a :: v)
        (fun _ hx => List.mem_cons_of_mem _ hx) l
      omega
    · have hmem' : tn ∈ l := by
        rcases List.mem_cons.mp hmem with h | h
        · exact absurd h.symm hat
        · exact h
      by_cases hva : a ∈ v
      · have h1 : (tn :: v).contains a = true :=
          contains_true (List.mem_cons_of_mem _ hva)
        simp only [List.filter_cons, h1, contains_true hva, Bool.not_true,
          if_neg Bool.false_ne_true]
        exact ih hmem'
      · have h1 : (tn :: v).contains a = false := by
          apply contains_false
          intro hx
          rcases List.mem_cons.mp hx with h | h
          · exact hat h
          · exact hva h
        simp only [List.filter_cons, h1, contains_false hva, Bool.not_false,
          if_pos rfl, List.length_cons]
        exact Nat.succ_lt_succ (ih hmem')

theorem missing_anti {model : ServiceModel} {p : String} {v v' : List String}
    (h : v ⊆ v') : missingCount model p v' ≤ missingCount model p v :=
  filter_length_anti h _

theorem missing_strict {model : ServiceModel} {p : String} {v : List String} {tn : String}
    (hc : tn ∈ candidateNames model p) (hnv : tn ∉ v) :
    missingCount model p (tn :: v) < missingCount model p v :=
  filter_length_strict hc hnv

/-- The member loop never exhausts fuel provided the recursive call does not
on any visited superset. -/
theorem goMembers_ne_outOfFuel (model : ServiceModel) (p pp : String)
    (recur : Shape → List String → Except GenError (List AwsModel × List String))
    (hrecM : ∀ s v out, recur s v = .ok out → v ⊆ out.2)
    (v₀ : List String)
    (hrecF : ∀ s v, s ∈ model → v₀ ⊆ v → recur s v ≠ .error .outOfFuel) :
    ∀ (mems : List (String × String)) (visited : List String), v₀ ⊆ visited →
      goMembers model p pp recur mems visited ≠ .error .outOfFuel := by
  intro mems
  induction mems with
  | nil => intro visited hv h; simp [goMembers] at h
  | cons m rest ih =>
    obtain ⟨name, msn⟩ := m
    intro visited hv h
    simp only [goMembers] at h
    split at h
    · exact ih _ hv h
    · split at h
      · simp at h
      · rename_i prop_shape hres
        split at h
        · rw [except_bind_err] at h
          rcases h with h | ⟨a, _, ha⟩
          · exact ih _ hv h
          · simp at ha
        · split at h
          · split at h
            · simp at h
            · rename_i inner hinner
              split at h
              · rw [except_bind_err] at h
                rcases h with h | ⟨a, _, ha⟩
                · exact ih _ hv h
                · simp at ha
              · split at h
                · rw [except_bind_err] at h
                  rcases h with h | ⟨a, _, ha⟩
                  · exact ih _ hv h
                  · simp at ha
                · rw [except_bind_err] at h
                  rcases h with h | ⟨a, ha, h⟩
                  · exact hrecF _ _ (resolve_mem hinner) hv h
                  · rw [except_bind_err] at h
                    rcases h with h | ⟨b, _, hb⟩
                    · exact ih _ (List.Subset.trans hv (hrecM _ _ a ha)) h
                    · simp at hb
          · split at h
            · rename_i key value hk hvv
              split at h
              · simp at h
              · rw [except_bind_err] at h
                rcases h with h | ⟨a, ha, h⟩
                · exact hrecF _ _ (resolve_mem hvv) hv h
                · rw [except_bind_err] at h
                  rcases h with h | ⟨b, _, hb⟩
                  · exact ih _ (List.Subset.trans hv (hrecM _ _ a ha)) h
                  · simp at hb
            · simp at h
            · simp at h
          · split at h
            · rw [except_bind_err] at h
              rcases h with h | ⟨a, _, ha⟩
              · exact ih _ hv h
              · simp at ha
            · rw [except_bind_err] at h
              rcases h with h | ⟨a, ha, h⟩
              · exact hrecF _ _ (resolve_mem hres) hv h
              · rw [except_bind_err] at h
                rcases h with h | ⟨b, _, hb⟩
                · exact ih _ (List.Subset.trans hv (hrecM _ _ a ha)) h
                · simp at hb
          · simp at h

/-- With fuel exceeding the number of unvisited candidate names,
`clazz_model` never exhausts fuel on shapes of the model (the prefix is the
normalized string, as in every recursive call). -/
theorem clazz_model_sufficient_fuel :
    ∀ (fuel : Nat) (model : ServiceModel) (p : String) (shape : Shape)
      (visited : List String) (pp cn bc : Option String) (ar : Bool)
      (api : Option (String × String × String)),
      shape ∈ model → missingCount model p visited < fuel →
      clazz_model fuel model shape visited (some p) pp cn bc ar api ≠
        .error .outOfFuel := by
  intro fuel
  induction fuel with
  | zero =>
    intro model p shape visited pp cn bc ar api _ hlt
    exact absurd hlt (Nat.not_lt_zero _)
  | succ fuel ih =>
    intro model p shape visited pp cn bc ar api hs hlt h
    simp only [clazz_model] at h
    split at h
    · simp at h
    · rename_i hcont
      have hnv : typeNameWith (pyStrOpt (some p)) shape ∉ visited := by
        intro hx
        exact hcont (contains_true hx)
      have hc : typeNameWith (pyStrOpt (some p)) shape ∈ candidateNames model p :=
        typeNameWith_mem_candidates hs
      have hm1 : missingCount model p
          (typeNameWith (pyStrOpt (some p)) shape :: visited) < fuel := by
        have := missing_strict hc hnv
        omega
      split at h
      · rw [except_bind_err] at h
        rcases h with h | ⟨a, _, ha⟩
        · refine goMembers_ne_outOfFuel model _ _ _
            (fun s v out ho => clazz_model_visited_mono fuel model s v _ none none none
              false none out ho)
            (typeNameWith (pyStrOpt (some p)) shape :: visited)
            (fun s v hsm hsub hf => ih model p s v none none none false none hsm
              (Nat.lt_of_le_of_lt (missing_anti hsub) hm1) hf)
            _ _ (fun _ hx => hx) h
        · simp at ha
      · simp at h


theorem stripPre_append (p r : List Char) : stripPre p (p ++ r) = some r := by
  unfold stripPre
  rw [if_pos (List.take_left p r)]
  rw [List.drop_left]

theorem stripPre_append_ne {p q : List Char} (r : List Char) (i : Nat)
    (hip : i < p.length) (hiq : i < q.length) (hne : p[i]? ≠ q[i]?) :
    stripPre p (q ++ r) = none := by
  unfold stripPre
  rw [if_neg]
  intro heq
  apply hne
  have h1 : p[i]? = ((q ++ r).take p.length)[i]? := by rw [heq]
  rw [List.getElem?_take_of_lt hip] at h1
  rw [List.getElem?_append_left hiq] at h1
  exact h1

theorem stripSuffix_append (s x : List Char) : stripSuffix s (x ++ s) = some x := by
  simp [stripSuffix, List.length_append, Nat.add_sub_cancel, List.drop_left, List.take_left]

theorem findSome?_cons_none {α β : Type} (f : α → Option β) (a : α) (l : List α)
    (h : f a = none) : (a :: l).findSome? f = l.findSome? f := by
  simp [List.findSome?, h]

theorem findSome?_cons_some {α β : Type} (f : α → Option β) (a : α) (l : List α) (b : β)
    (h : f a = some b) : (a :: l).findSome? f = some b := by
  simp [List.findSome?, h]

/-- Rendered `Dict[kt, vt]` strings parse back to exactly the value type:
the scalar key names pairwise differ at character 5, so only the rendering
key matches. -/
theorem dictValueType_emit (kt : String) (hkt : kt ∈ scalarKeys) (vt : String) :
    dictValueType ("Dict[" ++ kt ++ ", " ++ vt ++ "]") = some vt := by
  have hksplit : kt = "int" ∨ kt = "float" ∨ kt = "bool" ∨ kt = "str" ∨
      kt = "datetime" ∨ kt = "Dict[str, str]" := by
    simpa [scalarKeys] using hkt
  rcases hksplit with rfl | rfl | rfl | rfl | rfl | rfl
  · have hdata : ("Dict[" ++ "int" ++ ", " ++ vt ++ "]").data
        = ("Dict[" ++ "int" ++ ", ").data ++ (vt.data ++ [']']) := rfl
    have hhit : dictEntry ("Dict[" ++ "int" ++ ", " ++ vt ++ "]") "int" = some vt.data := by
      unfold dictEntry
      rw [hdata, stripPre_append]
      show stripSuffix [']'] (vt.data ++ [']']) = some vt.data
      exact stripSuffix_append [']'] vt.data
    unfold dictValueType
    rw [show scalarKeys = ["int", "float", "bool", "str", "datetime", "Dict[str, str]"] from rfl]
    rw [findSome?_cons_some _ _ _ _ hhit]
    rfl
  · have hdata : ("Dict[" ++ "float" ++ ", " ++ vt ++ "]").data
        = ("Dict[" ++ "float" ++ ", ").data ++ (vt.data ++ [']']) := rfl
    have hm0 : dictEntry ("Dict[" ++ "float" ++ ", " ++ vt ++ "]") "int" = none := by
      unfold dictEntry
      rw [hdata, stripPre_append_ne _ 5 (by decide) (by decide) (by decide)]
      rfl
    have hhit : dictEntry ("Dict[" ++ "float" ++ ", " ++ vt ++ "]") "float" = some vt.data := by
      unfold dictEntry
      rw [hdata, stripPre_append]
      show stripSuffix [']'] (vt.data ++ [']']) = some vt.data
      exact stripSuffix_append [']'] vt.data
    unfold dictValueType
    rw [show scalarKeys = ["int", "float", "bool", "str", "datetime", "Dict[str, str]"] from rfl]
    rw [findSome?_cons_none _ _ _ hm0, findSome?_cons_some _ _ _ _ hhit]
    rfl
  · have hdata : ("Dict[" ++ "bool" ++ ", " ++ vt ++ "]").data
        = ("Dict[" ++ "bool" ++ ", ").data ++ (vt.data ++ [']']) := rfl
    have hm0 : dictEntry ("Dict[" ++ "bool" ++ ", " ++ vt ++ "]") "int" = none := by
      unfold dictEntry
      rw [hdata, stripPre_append_ne _ 5 (by decide) (by decide) (by decide)]
      rfl
    have hm1 : dictEntry ("Dict[" ++ "bool" ++ ", " ++ vt ++ "]") "float" = none := by
      unfold dictEntry
      rw [hdata, stripPre_append_ne _ 5 (by decide) (by decide) (by decide)]
      rfl
    have hhit : dictEntry ("Dict[" ++ "bool" ++ ", " ++ vt ++ "]") "bool" = some vt.data := by
      unfold dictEntry
      rw [hdata, stripPre_append]
      show stripSuffix [']'] (vt.data ++ [']']) = some vt.data
      exact stripSuffix_append [']'] vt.data
    unfold dictValueType
    rw [show scalarKeys = ["int", "float", "bool", "str", "datetime", "Dict[str, str]"] from rfl]
    rw [findSome?_cons_none _ _ _ hm0, findSome?_cons_none _ _ _ hm1, findSome?_cons_some _ _ _ _ hhit]
    rfl
  · have hdata : ("Dict[" ++ "str" ++ ", " ++ vt ++ "]").data
        = ("Dict[" ++ "str" ++ ", ").data ++ (vt.data ++ [']']) := rfl
    have hm0 : dictEntry ("Dict[" ++ "str" ++ ", " ++ vt ++ "]") "int" = none := by
      unfold dictEntry
      rw [hdata, stripPre_append_ne _ 5 (by decide) (by decide) (by decide)]
      rfl
    have hm1 : dictEntry ("Dict[" ++ "str" ++ ", " ++ vt ++ "]") "float" = none := by
      unfold dictEntry
      rw [hdata, stripPre_append_ne _ 5 (by decide) (by decide) (by decide)]
      rfl
    have hm2 : dictEntry ("Dict[" ++ "str" ++ ", " ++ vt ++ "]") "bool" = none := by
      unfold dictEntry
      rw [hdata, stripPre_append_ne _ 5 (by decide) (by decide) (by decide)]
      rfl
    have hhit : dictEntry ("Dict[" ++ "str" ++ ", " ++ vt ++ "]") "str" = some vt.data := by
      unfold dictEntry
      rw [hdata, stripPre_append]
      show stripSuffix [']'] (vt.data ++ [']']) = some vt.data
      exact stripSuffix_append [']'] vt.data
    unfold dictValueType
    rw [show scalarKeys = ["int", "float", "bool", "str", "datetime", "Dict[str, str]"] from rfl]
    rw [findSome?_cons_none _ _ _ hm0, findSome?_cons_none _ _ _ hm1, findSome?_cons_none _ _ _ hm2, findSome?_cons_some _ _ _ _ hhit]
    rfl
  · have hdata : ("Dict[" ++ "datetime" ++ ", " ++ vt ++ "]").data
        = ("Dict[" ++ "datetime" ++ ", ").data ++ (vt.data ++ [']']) := rfl
    have hm0 : dictEntry ("Dict[" ++ "datetime" ++ ", " ++ vt ++ "]") "int" = none := by
      unfold dictEntry
      rw [hdata, stripPre_append_ne _ 5 (by decide) (by decide) (by decide)]
      rfl
    have hm1 : dictEntry ("Dict[" ++ "datetime" ++ ", " ++ vt ++ "]") "float" = none := by
      unfold dictEntry
      rw [hdata, stripPre_append_ne _ 5 (by decide) (by decide) (by decide)]
      rfl
    have hm2 : dictEntry ("Dict[" ++ "datetime" ++ ", " ++ vt ++ "]") "bool" = none := by
      unfold dictEntry
      rw [hdata, stripPre_append_ne _ 5 (by decide) (by decide) (by decide)]
      rfl
    have hm3 : dictEntry ("Dict[" ++ "datetime" ++ ", " ++ vt ++ "]") "str" = none := by
      unfold dictEntry
      rw [hdata, stripPre_append_ne _ 5 (by decide) (by decide) (by decide)]
      rfl
    have hhit : dictEntry ("Dict[" ++ "datetime" ++ ", " ++ vt ++ "]") "datetime" = some vt.data := by
      unfold dictEntry
      rw [hdata, stripPre_append]
      show stripSuffix [']'] (vt.data ++ [']']) = some vt.data
      exact stripSuffix_append [']'] vt.data
    unfold dictValueType
    rw [show scalarKeys = ["int", "float", "bool", "str", "datetime", "Dict[str, str]"] from rfl]
    rw [findSome?_cons_none _ _ _ hm0, findSome?_cons_none _ _ _ hm1, findSome?_cons_none _ _ _ hm2, findSome?_cons_none _ _ _ hm3, findSome?_cons_some _ _ _ _ hhit]
    rfl
  · have hdata : ("Dict[" ++ "Dict[str, str]" ++ ", " ++ vt ++ "]").data
        = ("Dict[" ++ "Dict[str, str]" ++ ", ").data ++ (vt.data ++ [']']) := rfl
    have hm0 : dictEntry ("Dict[" ++ "Dict[str, str]" ++ ", " ++ vt ++ "]") "int" = none := by
      unfold dictEntry
      rw [hdata, stripPre_append_ne _ 5 (by decide) (by decide) (by decide)]
      rfl
    have hm1 : dictEntry ("Dict[" ++ "Dict[str, str]" ++ ", " ++ vt ++ "]") "float" = none := by
      unfold dictEntry
      rw [hdata, stripPre_append_ne _ 5 (by decide) (by decide) (by decide)]
      rfl
    have hm2 : dictEntry ("Dict[" ++ "Dict[str, str]" ++ ", " ++ vt ++ "]") "bool" = none := by
      unfold dictEntry
      rw [hdata, stripPre_append_ne _ 5 (by decide) (by decide) (by decide)]
      rfl
    have hm3 : dictEntry ("Dict[" ++ "Dict[str, str]" ++ ", " ++ vt ++ "]") "str" = none := by
      unfold dictEntry
      rw [hdata, stripPre_append_ne _ 5 (by decide) (by decide) (by decide)]
      rfl
    have hm4 : dictEntry ("Dict[" ++ "Dict[str, str]" ++ ", " ++ vt ++ "]") "datetime" = none := by
      unfold dictEntry
      rw [hdata, stripPre_append_ne _ 5 (by decide) (by decide) (by decide)]
      rfl
    have hhit : dictEntry ("Dict[" ++ "Dict[str, str]" ++ ", " ++ vt ++ "]") "Dict[str, str]" = some vt.data := by
      unfold dictEntry
      rw [hdata, stripPre_append]
      show stripSuffix [']'] (vt.data ++ [']']) = some vt.data
      exact stripSuffix_append [']'] vt.data
    unfold dictValueType
    rw [show scalarKeys = ["int", "float", "bool", "str", "datetime", "Dict[str, str]"] from rfl]
    rw [findSome?_cons_none _ _ _ hm0, findSome?_cons_none _ _ _ hm1, findSome?_cons_none _ _ _ hm2, findSome?_cons_none _ _ _ hm3, findSome?_cons_none _ _ _ hm4, findSome?_cons_some _ _ _ _ hhit]
    rfl

/-- The qualified name of a non-simple shape is `Aws`-prefixed. -/
theorem aws_typeName {s : Shape} {p : String} (hss : simple_shape s = none) :
    isAwsName (typeNameWith p s) = true := by
  unfold typeNameWith
  rw [hss]
  rfl

/-- Scalar type names are never `Aws`-qualified. -/
theorem scalarKeys_not_aws : ∀ t ∈ scalarKeys, isAwsName t = false := by decide

/-- A scalar-typed field references no generated model. -/
theorem scalar_prop_no_ref {pr : AwsProperty} (hc : pr.is_complex = false)
    (hpt : pr.type ∈ scalarKeys) : ∀ T, ¬ PropRef pr T := by
  intro T href
  obtain ⟨href, haws⟩ := href
  unfold refOf at href
  rw [hc] at href
  simp only [Bool.false_eq_true, if_false] at href
  have hsplit : pr.type = "int" ∨ pr.type = "float" ∨ pr.type = "bool" ∨ pr.type = "str" ∨
      pr.type = "datetime" ∨ pr.type = "Dict[str, str]" := by
    simpa [scalarKeys] using hpt
  rcases hsplit with h | h | h | h | h | h <;> rw [h] at href
  · rw [show dictValueType "int" = none from by decide] at href; cases href
  · rw [show dictValueType "float" = none from by decide] at href; cases href
  · rw [show dictValueType "bool" = none from by decide] at href; cases href
  · rw [show dictValueType "str" = none from by decide] at href; cases href
  · rw [show dictValueType "datetime" = none from by decide] at href; cases href
  · rw [show dictValueType "Dict[str, str]" = some "str" from by decide] at href
    injection href with href
    rw [← href] at haws
    cases haws

theorem MStat.nil (p : String) (visited : List String) :
    MStat p visited visited [] [] :=
  { sub := List.Subset.refl _
    nodup := List.nodup_nil
    names := by intro m hm; cases hm
    newAws := by intro n hn hnv _; exact absurd hn hnv
    deepRefs := by intro m hm; cases hm
    propRefs := by intro pr hpr; cases hpr }

theorem MStat.consProp {p : String} {visited v' : List String} {ms : List AwsModel}
    {prs : List AwsProperty} (h : MStat p visited v' ms prs) (pr : AwsProperty)
    (href : ∀ T, PropRef pr T → T ∈ v') : MStat p visited v' ms (pr :: prs) :=
  { sub := h.sub
    nodup := h.nodup
    names := h.names
    newAws := h.newAws
    deepRefs := h.deepRefs
    propRefs := by
      intro pr' hpr' T hT
      rcases List.mem_cons.mp hpr' with rfl | hmem
      · exact href T hT
      · exact h.propRefs pr' hmem T hT }

theorem MStat.consScalarProp {p : String} {visited v' : List String} {ms : List AwsModel}
    {prs : List AwsProperty} (h : MStat p visited v' ms prs) (pr : AwsProperty)
    (hc : pr.is_complex = false) (hpt : pr.type ∈ scalarKeys) :
    MStat p visited v' ms (pr :: prs) :=
  h.consProp pr (fun T hT => absurd hT (scalar_prop_no_ref hc hpt T))

theorem MStat.combine {p : String} {target : Shape} {visited v₁ v₂ : List String}
    {msA msB : List AwsModel} {prs : List AwsProperty}
    (hA : CStat p target visited v₁ msA) (hB : MStat p v₁ v₂ msB prs) :
    MStat p visited v₂ (msA ++ msB) prs :=
  { sub := List.Subset.trans hA.sub hB.sub
    nodup := by
      rw [List.map_append, List.nodup_append]
      refine ⟨hA.nodup, hB.nodup, ?_⟩
      intro n hnA hnB
      obtain ⟨mA, hmA, rfl⟩ := List.mem_map.mp hnA
      obtain ⟨mB, hmB, hEq⟩ := List.mem_map.mp hnB
      exact (hB.names mB hmB).2 (hEq ▸ (hA.names mA hmA).1)
    names := by
      intro m hm
      rcases List.mem_append.mp hm with hm | hm
      · exact ⟨hB.sub (hA.names m hm).1, (hA.names m hm).2⟩
      · exact ⟨(hB.names m hm).1, fun hx => (hB.names m hm).2 (hA.sub hx)⟩
    newAws := by
      intro n hn hnv haws
      by_cases h1 : n ∈ v₁
      · obtain ⟨m, hm, hname⟩ := hA.newAws n h1 hnv haws
        exact ⟨m, List.mem_append_left _ hm, hname⟩
      · obtain ⟨m, hm, hname⟩ := hB.newAws n hn h1 haws
        exact ⟨m, List.mem_append_right _ hm, hname⟩
    deepRefs := by
      intro m hm pr hpr T hT
      rcases List.mem_append.mp hm with hm | hm
      · exact hB.sub (hA.deepRefs m hm pr hpr T hT)
      · exact hB.deepRefs m hm pr hpr T hT
    propRefs := hB.propRefs }

theorem CStat.ofVisited (p : String) (shape : Shape) (visited : List String)
    (h : typeNameWith p shape ∈ visited) : CStat p shape visited visited [] :=
  { sub := List.Subset.refl _
    tnMem := h
    nodup := List.nodup_nil
    names := by intro m hm; cases hm
    newAws := by intro n hn hnv _; exact absurd hn hnv
    deepRefs := by intro m hm; cases hm }

theorem CStat.ofSimple {p : String} {shape : Shape} {visited : List String} (t : String)
    (hss : simple_shape shape = some t) :
    CStat p shape visited (typeNameWith p shape :: visited) [] :=
  { sub := fun _ hx => List.mem_cons_of_mem _ hx
    tnMem := List.mem_cons_self _ _
    nodup := List.nodup_nil
    names := by intro m hm; cases hm
    newAws := by
      intro n hn hnv2 haws
      exfalso
      rcases List.mem_cons.mp hn with rfl | hmem
      · have ht : typeNameWith p shape = t := by unfold typeNameWith; rw [hss]
        rw [ht] at haws
        rw [scalarKeys_not_aws t (simple_shape_scalar hss)] at haws
        cases haws
      · exact hnv2 hmem
    deepRefs := by intro m hm; cases hm }

theorem CStat.ofMembers {p : String} {shape : Shape} {visited v₂ : List String}
    {nested : List AwsModel} {prs : List AwsProperty}
    (hnv : typeNameWith p shape ∉ visited)
    (hM : MStat p (typeNameWith p shape :: visited) v₂ nested prs)
    (ar : Bool) (bc : Option String) (api : Option (String × String × String)) :
    CStat p shape visited v₂
      (nested ++ [AwsModel.mk (typeNameWith p shape) prs ar bc api]) :=
  { sub := fun _ hx => hM.sub (List.mem_cons_of_mem _ hx)
    tnMem := hM.sub (List.mem_cons_self _ _)
    nodup := by
      rw [List.map_append, List.nodup_append]
      refine ⟨hM.nodup, by simp, ?_⟩
      intro n hnN hnT
      simp only [List.map_cons, List.map_nil, List.mem_singleton] at hnT
      obtain ⟨m, hm, rfl⟩ := List.mem_map.mp hnN
      exact (hM.names m hm).2 (hnT ▸ List.mem_cons_self _ _)
    names := by
      intro m hm
      rcases List.mem_append.mp hm with hm | hm
      · exact ⟨(hM.names m hm).1, fun hx => (hM.names m hm).2 (List.mem_cons_of_mem _ hx)⟩
      · simp only [List.mem_singleton] at hm
        subst hm
        exact ⟨hM.sub (List.mem_cons_self _ _), hnv⟩
    newAws := by
      intro n hn hnv2 haws
      by_cases h1 : n = typeNameWith p shape
      · refine ⟨AwsModel.mk (typeNameWith p shape) prs ar bc api,
          List.mem_append_right _ (List.mem_singleton_self _), h1.symm⟩
      · have hni : n ∉ typeNameWith p shape :: visited := by
          intro hx
          rcases List.mem_cons.mp hx with h | h
          · exact h1 h
          · exact hnv2 h
        obtain ⟨m, hm, hname⟩ := hM.newAws n hn hni haws
        exact ⟨m, List.mem_append_left _ hm, hname⟩
    deepRefs := by
      intro m hm pr hpr T hT
      rcases List.mem_append.mp hm with hm | hm
      · exact hM.deepRefs m hm pr hpr T hT
      · simp only [List.mem_singleton] at hm
        subst hm
        exact hM.propRefs pr hpr T hT }

theorem complex_simple_scalar {model : ServiceModel} {s : Shape} {a b : String}
    (h : complex_simple_shape model s = some (a, b)) : b ∈ scalarKeys := by
  unfold complex_simple_shape at h
  split at h
  · split at h
    · split at h
      · rename_i hps
        injection h with h
        simp only [Prod.mk.injEq] at h
        rw [← h.2]
        exact simple_shape_scalar hps
      · cases h
    · cases h
  · cases h

/-- The member loop preserves the dedup/no-dangling invariant, given the
schema is regular and the recursive call establishes `CStat` on simple or
record shapes. -/
theorem goMembers_good (model : ServiceModel) (p pp : String)
    (recur : Shape → List String → Except GenError (List AwsModel × List String))
    (hreg : regularModel model)
    (hrec : ∀ s (v : List String) ms v', s ∈ model →
      (simple_shape s ≠ none ∨ ∃ sm, s.body = ShapeBody.struct sm) →
      recur s v = .ok (ms, v') → CStat p s v v' ms) :
    ∀ (mems : List (String × String)) (visited : List String)
      (ms : List AwsModel) (prs : List AwsProperty) (v' : List String),
      goMembers model p pp recur mems visited = .ok (ms, prs, v') →
      MStat p visited v' ms prs := by
  intro mems
  induction mems with
  | nil =>
    intro visited ms prs v' h
    simp only [goMembers, Except.ok.injEq, Prod.mk.injEq] at h
    obtain ⟨h1, h2, h3⟩ := h
    subst h1; subst h2; subst h3
    exact MStat.nil p visited
  | cons m rest ih =>
    obtain ⟨name, msn⟩ := m
    intro visited ms prs v' h
    simp only [goMembers] at h
    split at h
    · exact ih _ _ _ _ h
    · split at h
      · cases h
      · rename_i prop_shape hres
        split at h
        · rename_i simple hsimp
          rw [except_bind_ok] at h
          obtain ⟨⟨msR, prsR, vR⟩, ha, h⟩ := h
          injection h with h
          simp only [Prod.mk.injEq] at h
          obtain ⟨h1, h2, h3⟩ := h
          subst h1; subst h2; subst h3
          exact (ih _ _ _ _ ha).consScalarProp _ rfl (simple_shape_scalar hsimp)
        · rename_i hss
          split at h
          · -- list member
            rename_i inner_name hbody
            split at h
            · cases h
            · rename_i inner hinner
              split at h
              · rename_i simple2 hsimp2
                rw [except_bind_ok] at h
                obtain ⟨⟨msR, prsR, vR⟩, ha, h⟩ := h
                injection h with h
                simp only [Prod.mk.injEq] at h
                obtain ⟨h1, h2, h3⟩ := h
                subst h1; subst h2; subst h3
                exact (ih _ _ _ _ ha).consScalarProp _ rfl (simple_shape_scalar hsimp2)
              · rename_i hsi
                split at h
                · rename_i pair hcs
                  obtain ⟨pn, pt⟩ := pair
                  rw [except_bind_ok] at h
                  obtain ⟨⟨msR, prsR, vR⟩, ha, h⟩ := h
                  injection h with h
                  simp only [Prod.mk.injEq] at h
                  obtain ⟨h1, h2, h3⟩ := h
                  subst h1; subst h2; subst h3
                  exact (ih _ _ _ _ ha).consScalarProp _ rfl (complex_simple_scalar hcs)
                · rename_i hcsn
                  rw [except_bind_ok] at h
                  obtain ⟨⟨msA, vA⟩, hra, h⟩ := h
                  rw [except_bind_ok] at h
                  obtain ⟨⟨msB, prsB, vB⟩, hrb, h⟩ := h
                  injection h with h
                  simp only [Prod.mk.injEq] at h
                  obtain ⟨h1, h2, h3⟩ := h
                  subst h1; subst h2; subst h3
                  have hstruct := (hreg prop_shape (resolve_mem hres)).1 inner_name
                    hbody inner hinner hsi hcsn
                  have hA := hrec inner visited msA vA (resolve_mem hinner)
                    (Or.inr hstruct) hra
                  have hB := ih _ _ _ _ hrb
                  refine (MStat.combine hA hB).consProp _ ?_
                  intro T hT
                  obtain ⟨href, _⟩ := hT
                  have href2 : some (typeNameWith p inner) = some T := href
                  injection href2 with href2
                  rw [← href2]
                  exact hB.sub hA.tnMem
          · -- map member
            rename_i kn vn hbody
            split at h
            · rename_i key value hk hv
              split at h
              · cases h
              · rename_i key_type hkt
                rw [except_bind_ok] at h
                obtain ⟨⟨msA, vA⟩, hra, h⟩ := h
                rw [except_bind_ok] at h
                obtain ⟨⟨msB, prsB, vB⟩, hrb, h⟩ := h
                injection h with h
                simp only [Prod.mk.injEq] at h
                obtain ⟨h1, h2, h3⟩ := h
                subst h1; subst h2; subst h3
                have hdis : simple_shape value ≠ none ∨
                    ∃ sm2, value.body = ShapeBody.struct sm2 := by
                  cases hsv : simple_shape value with
                  | some t => exact Or.inl (by intro hx; cases hx)
                  | none =>
                    exact Or.inr ((hreg prop_shape (resolve_mem hres)).2 kn vn hbody
                      value hv hsv)
                have hA := hrec value visited msA vA (resolve_mem hv) hdis hra
                have hB := ih _ _ _ _ hrb
                refine (MStat.combine hA hB).consProp _ ?_
                intro T hT
                obtain ⟨href, _⟩ := hT
                have href2 : dictValueType
                    ("Dict[" ++ key_type ++ ", " ++ typeNameWith p value ++ "]") =
                    some T := href
                rw [dictValueType_emit key_type (simple_shape_scalar hkt)
                  (typeNameWith p value)] at href2
                injection href2 with href2
                rw [← href2]
                exact hB.sub hA.tnMem
            · cases h
            · cases h
          · -- structure member
            rename_i sm2 hbody
            split at h
            · rename_i pair hcs
              obtain ⟨pn, pt⟩ := pair
              rw [except_bind_ok] at h
              obtain ⟨⟨msR, prsR, vR⟩, ha, h⟩ := h
              injection h with h
              simp only [Prod.mk.injEq] at h
              obtain ⟨h1, h2, h3⟩ := h
              subst h1; subst h2; subst h3
              exact (ih _ _ _ _ ha).consScalarProp _ rfl (complex_simple_scalar hcs)
            · rename_i hcsn
              rw [except_bind_ok] at h
              obtain ⟨⟨msA, vA⟩, hra, h⟩ := h
              rw [except_bind_ok] at h
              obtain ⟨⟨msB, prsB, vB⟩, hrb, h⟩ := h
              injection h with h
              simp only [Prod.mk.injEq] at h
              obtain ⟨h1, h2, h3⟩ := h
              subst h1; subst h2; subst h3
              have hA := hrec prop_shape visited msA vA (resolve_mem hres)
                (Or.inr ⟨sm2, hbody⟩) hra
              have hB := ih _ _ _ _ hrb
              refine (MStat.combine hA hB).consProp _ ?_
              intro T hT
              obtain ⟨href, _⟩ := hT
              have href2 : some (typeNameWith p prop_shape) = some T := href
              injection href2 with href2
              rw [← href2]
              exact hB.sub hA.tnMem
          · cases h

/-- One `clazz_model` call with normalized prefix and no class-name override
establishes the dedup/no-dangling invariant on regular schemas, for shapes
that are simple or records. -/
theorem clazz_model_good :
    ∀ (fuel : Nat) (model : ServiceModel) (p : String) (shape : Shape)
      (visited : List String) (pp bc : Option String) (ar : Bool)
      (api : Option (String × String × String)) (ms : List AwsModel) (v' : List String),
      regularModel model →
      (simple_shape shape ≠ none ∨ ∃ sm, shape.body = ShapeBody.struct sm) →
      clazz_model fuel model shape visited (some p) pp none bc ar api = .ok (ms, v') →
      CStat p shape visited v' ms := by
  intro fuel
  induction fuel with
  | zero =>
    intro model p shape visited pp bc ar api ms v' _ _ h
    cases h
  | succ fuel ih =>
    intro model p shape visited pp bc ar api ms v' hreg hsh h
    simp only [clazz_model] at h
    split at h
    · rename_i hcont
      injection h with h
      simp only [Prod.mk.injEq] at h
      obtain ⟨h1, h2⟩ := h
      subst h1; subst h2
      exact CStat.ofVisited p shape visited (List.mem_of_elem_eq_true hcont)
    · rename_i hcont
      have hnv : typeNameWith p shape ∉ visited := by
        intro hx
        exact hcont (contains_true hx)
      split at h
      · rename_i members hbody
        rw [except_bind_ok] at h
        obtain ⟨⟨nested, prs, v₂⟩, hgm, h⟩ := h
        injection h with h
        simp only [Prod.mk.injEq] at h
        obtain ⟨h1, h2⟩ := h
        subst h1; subst h2
        have hM := goMembers_good model p (pp.getD "") _ hreg
          (fun s v ms2 v2 hsm hdis ho =>
            ih model p s v none none false none ms2 v2 hreg hdis ho)
          members _ _ _ _ hgm
        exact CStat.ofMembers hnv hM ar bc api
      · rename_i hnstruct
        injection h with h
        simp only [Prod.mk.injEq] at h
        obtain ⟨h1, h2⟩ := h
        subst h1; subst h2
        rcases hsh with hsimp | ⟨sm, hsm⟩
        · cases hs : simple_shape shape with
          | none => exact absurd hs hsimp
          | some t => exact CStat.ofSimple t hs
        · exact (hnstruct sm hsm).elim

theorem RunInv.empty : RunInv [] [] :=
  { nodup := List.nodup_nil
    names := by intro m hm; cases hm
    aws := by intro n hn; cases hn
    refs := by intro m hm; cases hm }

theorem RunInv.step {visited v₁ : List String} {acc ms : List AwsModel} {p : String}
    {shape : Shape} (hR : RunInv visited acc) (hC : CStat p shape visited v₁ ms) :
    RunInv v₁ (acc ++ ms) :=
  { nodup := by
      rw [List.map_append, List.nodup_append]
      refine ⟨hR.nodup, hC.nodup, ?_⟩
      intro n hnA hnB
      obtain ⟨mA, hmA, rfl⟩ := List.mem_map.mp hnA
      obtain ⟨mB, hmB, hEq⟩ := List.mem_map.mp hnB
      exact (hC.names mB hmB).2 (hEq ▸ hR.names mA hmA)
    names := by
      intro m hm
      rcases List.mem_append.mp hm with hm | hm
      · exact hC.sub (hR.names m hm)
      · exact (hC.names m hm).1
    aws := by
      intro n hn haws
      by_cases h1 : n ∈ visited
      · obtain ⟨m, hm, hname⟩ := hR.aws n h1 haws
        exact ⟨m, List.mem_append_left _ hm, hname⟩
      · obtain ⟨m, hm, hname⟩ := hC.newAws n hn h1 haws
        exact ⟨m, List.mem_append_right _ hm, hname⟩
    refs := by
      intro m hm pr hpr T hT
      rcases List.mem_append.mp hm with hm | hm
      · exact hC.sub (hR.refs m hm pr hpr T hT)
      · exact hC.deepRefs m hm pr hpr T hT }

/-- Well-behaved root specifications: no class-name override, an explicit
prefix string, and a result shape resolving to a simple or record shape. -/
def goodSpec (sm : ServiceModel) (ep : AwsResotoModel) : Prop :=
  ep.name = none ∧ (∃ ps, ep.pfx = some ps) ∧
    ∃ s, resolve sm ep.result_shape = some s ∧
      (simple_shape s ≠ none ∨ ∃ sm2, s.body = ShapeBody.struct sm2)

theorem run_specs_inv (fuel : Nat) (svc : String) (sm : ServiceModel)
    (hreg : regularModel sm) :
    ∀ (eps : List AwsResotoModel) (visited : List String) (acc out : List AwsModel)
      (v' : List String),
      (∀ ep ∈ eps, goodSpec sm ep) →
      run_specs fuel svc sm eps visited = .ok (out, v') →
      RunInv visited acc → RunInv v' (acc ++ out) := by
  intro eps
  induction eps with
  | nil =>
    intro visited acc out v' _ h hR
    injection h with h
    simp only [Prod.mk.injEq] at h
    obtain ⟨h1, h2⟩ := h
    subst h1; subst h2
    simpa using hR
  | cons ep eps ih =>
    intro visited acc out v' hspec h hR
    obtain ⟨hname, ⟨ps, hpfx⟩, s, hres, hdis⟩ := hspec ep (List.mem_cons_self _ _)
    simp only [run_specs, hres] at h
    rw [except_bind_ok] at h
    obtain ⟨s2, hs2, h⟩ := h
    injection hs2 with hs2
    subst hs2
    rw [except_bind_ok] at h
    obtain ⟨⟨ms, v₁⟩, hcm, h⟩ := h
    rw [except_bind_ok] at h
    obtain ⟨⟨ms₂, v₂⟩, hrs, h⟩ := h
    injection h with h
    simp only [Prod.mk.injEq] at h
    obtain ⟨h1, h2⟩ := h
    subst h1; subst h2
    rw [hname, hpfx] at hcm
    have hC := clazz_model_good fuel sm ps s visited ep.prop_pfx ep.base true
      (some (svc, ep.api_action, ep.result_property)) ms v₁ hreg hdis hcm
    have hR1 := hR.step hC
    have := ih v₁ (acc ++ ms) ms₂ v₂
      (fun e he => hspec e (List.mem_cons_of_mem _ he)) hrs hR1
    rwa [List.append_assoc] at this

theorem all_models_inv (fuel : Nat) :
    ∀ (services : List (String × ServiceModel × List AwsResotoModel))
      (visited : List String) (acc out : List AwsModel) (v' : List String),
      (∀ svc ∈ services, regularModel svc.2.1 ∧ ∀ ep ∈ svc.2.2, goodSpec svc.2.1 ep) →
      all_models fuel services visited = .ok (out, v') →
      RunInv visited acc → RunInv v' (acc ++ out) := by
  intro services
  induction services with
  | nil =>
    intro visited acc out v' _ h hR
    injection h with h
    simp only [Prod.mk.injEq] at h
    obtain ⟨h1, h2⟩ := h
    subst h1; subst h2
    simpa using hR
  | cons svc services ih =>
    obtain ⟨svcName, sm, eps⟩ := svc
    intro visited acc out v' hgood h hR
    obtain ⟨hreg, hspecs⟩ := hgood _ (List.mem_cons_self _ _)
    simp only [all_models] at h
    rw [except_bind_ok] at h
    obtain ⟨⟨ms, v₁⟩, hrs, h⟩ := h
    rw [except_bind_ok] at h
    obtain ⟨⟨ms₂, v₂⟩, hall, h⟩ := h
    injection h with h
    simp only [Prod.mk.injEq] at h
    obtain ⟨h1, h2⟩ := h
    subst h1; subst h2
    have hR1 := run_specs_inv fuel svcName sm hreg eps visited acc ms v₁ hspecs hrs hR
    have := ih v₁ (acc ++ ms) ms₂ v₂
      (fun e he => hgood e (List.mem_cons_of_mem _ he)) hall hR1
    rwa [List.append_assoc] at this

/-- Exactly one list entry carries a given name once names are nodup and one
entry is known to carry it. -/
theorem filter_name_length_one {out : List AwsModel} {T : String}
    (hnd : (out.map AwsModel.name).Nodup) {m : AwsModel} (hm : m ∈ out)
    (hname : m.name = T) :
    (out.filter (fun mdl => mdl.name == T)).length = 1 := by
  induction out with
  | nil => cases hm
  | cons a rest ih =>
    rw [List.map_cons, List.nodup_cons] at hnd
    rcases List.mem_cons.mp hm with rfl | hmem
    · rw [List.filter_cons, show (m.name == T) = true from beq_iff_eq.mpr hname]
      have hrest : rest.filter (fun mdl => mdl.name == T) = [] := by
        rw [List.filter_eq_nil_iff]
        intro b hb hbeq
        apply hnd.1
        rw [← hname] at hbeq
        have : b.name = m.name := by
          have := beq_iff_eq.mp hbeq
          rw [this, hname]
        rw [← this]
        exact List.mem_map_of_mem _ hb
      simp [hrest]
    · have hne : (a.name == T) = false := by
        cases hbeq : a.name == T
        · rfl
        · exfalso
          apply hnd.1
          rw [beq_iff_eq.mp hbeq, ← hname]
          exact List.mem_map_of_mem _ hmem
      rw [List.filter_cons, hne]
      exact ih hnd.2 hmem

/-! ## Claim theorems -/

/-- C4: the Name Transformer `to_snake` satisfies the four concrete test
cases `DeleteOnTermination → delete_on_termination`, `VPCId → vpc_id`,
`IAMInstanceProfile → iam_instance_profile` and `ID → id`. -/
theorem to_snake_concrete_cases :
    to_snake "DeleteOnTermination" = "delete_on_termination" ∧
    to_snake "VPCId" = "vpc_id" ∧
    to_snake "IAMInstanceProfile" = "iam_instance_profile" ∧
    to_snake "ID" = "id" :=
  ⟨rfl, rfl, rfl, rfl⟩

/-- C9: the whole transform is a pure function of the schema snapshot and
the RootSpec table; two runs over equal inputs produce equal ordered model
collections. (The embedding is a total function, so determinism is exactly
input-extensionality.) -/
theorem all_models_deterministic (fuel₁ fuel₂ : Nat)
    (services₁ services₂ : List (String × ServiceModel × List AwsResotoModel))
    (hf : fuel₁ = fuel₂) (hs : services₁ = services₂) :
    all_models fuel₁ services₁ [] = all_models fuel₂ services₂ [] := by
  subst hf; subst hs; rfl

/-- Witness for C9 at a concrete one-service run. -/
theorem all_models_deterministic_witness :
    all_models 4
      [("svc", [⟨"S", "", .struct [("Id", "Str")]⟩, ⟨"Str", "", .leaf "string"⟩],
        [⟨"act", "res", "S", some "", none, none, none⟩])] [] =
    all_models 4
      [("svc", [⟨"S", "", .struct [("Id", "Str")]⟩, ⟨"Str", "", .leaf "string"⟩],
        [⟨"act", "res", "S", some "", none, none, none⟩])] [] :=
  all_models_deterministic 4 4 _ _ rfl rfl

/-- C10: invoking `clazz_model` on a shape that is not a record returns no
models and no error, yet marks the shape's qualified type name as visited;
any later shape (in particular a record) with the same qualified type name
is then silently skipped. -/
theorem clazz_model_non_record_silent (fuel fuel₂ : Nat)
    (model model₂ : ServiceModel) (shape shape₂ : Shape) (visited : List String)
    (pfx pp cn bc pfx₂ pp₂ cn₂ bc₂ : Option String) (ar ar₂ : Bool)
    (api api₂ : Option (String × String × String))
    (hns : ∀ ms, shape.body ≠ ShapeBody.struct ms)
    (hnv : visited.contains (typeNameWith (pyStrOpt pfx) shape) = false)
    (hsame : typeNameWith (pyStrOpt pfx₂) shape₂ = typeNameWith (pyStrOpt pfx) shape) :
    clazz_model (fuel + 1) model shape visited pfx pp cn bc ar api =
      .ok ([], typeNameWith (pyStrOpt pfx) shape :: visited) ∧
    clazz_model (fuel₂ + 1) model₂ shape₂ (typeNameWith (pyStrOpt pfx) shape :: visited)
      pfx₂ pp₂ cn₂ bc₂ ar₂ api₂ =
      .ok ([], typeNameWith (pyStrOpt pfx) shape :: visited) := by
  refine ⟨?_, ?_⟩
  · simp only [clazz_model, hnv, Bool.false_eq_true, if_false]
  · have hc : (typeNameWith (pyStrOpt pfx) shape :: visited).contains
        (typeNameWith (pyStrOpt pfx₂) shape₂) = true := by
      simp [List.contains_cons, hsame]
    simp only [clazz_model, hc, if_true]

/-- Witness for C10: a list shape and a record shape sharing one qualified
type name. -/
theorem clazz_model_non_record_silent_witness :
    clazz_model 3 [⟨"Str", "", .leaf "string"⟩] ⟨"X", "", .list "Str"⟩ []
      (some "") none none none false none = .ok ([], ["AwsX"]) ∧
    clazz_model 3 [⟨"Str", "", .leaf "string"⟩] ⟨"X", "", .struct [("A", "Str")]⟩ ["AwsX"]
      (some "") none none none false none = .ok ([], ["AwsX"]) :=
  clazz_model_non_record_silent 2 2 [⟨"Str", "", .leaf "string"⟩] [⟨"Str", "", .leaf "string"⟩]
    ⟨"X", "", .list "Str"⟩ ⟨"X", "", .struct [("A", "Str")]⟩ []
    (some "") none none none (some "") none none none false false none none
    (by intro ms h; cases h) rfl rfl

/-- C2 counterexample: the fixed mapping block of a concrete root model has
six entries (`atime` included), not the five the claim states. -/
theorem root_fixed_fields_cex :
    base_mapping.map Prod.fst = ["id", "tags", "name", "ctime", "mtime", "atime"] ∧
    base_mapping.map Prod.fst ≠ ["id", "tags", "name", "ctime", "mtime"] ∧
    (AwsModel.mk "AwsXY" [] true none none).to_class =
      "@define(eq=False, slots=False)\nclass AwsXY(AwsResource):\n    kind: ClassVar[str] = \"aws_xy\"\n    mapping: ClassVar[Dict[str, Bender]] = \x7b\n        \"id\": S(\"id\"),\n        \"tags\": S(\"Tags\", default=[]) >> TagsToDict(),\n        \"name\": S(\"Tags\", default=[]) >> TagsValue(\"Name\"),\n        \"ctime\": K(None),\n        \"mtime\": K(None),\n        \"atime\": K(None),\n\n    \x7d\n\n" := by
  refine ⟨rfl, by decide, ?_⟩
  set_option maxRecDepth 4000 in rfl

/-- C2 (amended): a root model with no base-type override renders exactly
six fixed mapping entries — id, tags, name, ctime, mtime, atime — in that
fixed order, ahead of all schema-derived field mappings. -/
theorem root_fixed_fields_six (m : AwsModel) (hr : m.aggregate_root = true)
    (hb : m.base_class = none) :
    base_mapping.map Prod.fst = ["id", "tags", "name", "ctime", "mtime", "atime"] ∧
    ∃ pre post, m.to_class = pre ++
      (String.intercalate ",\n"
          (base_mapping.map (fun kv => "        \"" ++ kv.1 ++ "\": " ++ kv.2)) ++ ",\n"
        ++ String.intercalate ",\n" (m.props.map (fun pr => "        " ++ pr.mapping)))
      ++ post := by
  refine ⟨rfl, ?_⟩
  refine ⟨"@define(eq=False, slots=False)\nclass " ++ m.name ++ "(AwsResource):" ++ "\n"
    ++ ("    kind: ClassVar[str] = \"aws_" ++ to_snake (m.name.drop 3) ++ "\"") ++ "\n"
    ++ (match m.api_info with
        | some (srv, act, res) =>
          "    api_info: ClassVar[AwsApiSpec] = AwsApiSpec(\"" ++ srv ++ "\", \""
            ++ act ++ "\", \"" ++ res ++ "\")\n"
        | none => "")
    ++ "    mapping: ClassVar[Dict[str, Bender]] = \x7b\n",
    "\n    \x7d" ++ "\n"
    ++ String.intercalate "\n"
        (m.props.map (fun pr => "    " ++ pr.name ++ ": " ++ pr.type_string ++ " = " ++ pr.assignment))
    ++ "\n", ?_⟩
  simp only [AwsModel.to_class, hr, hb, if_true]
  simp [String.append_assoc]

/-- C7: in the ordered output, the model of a compiled record appears after
all models newly generated by recursing into its members (which
`goMembers` returns, in member order, ahead of it), and both the per-service
loop and the root driver flat-append each invocation's ordered results. -/
theorem nested_models_first :
    (∀ (fuel : Nat) (model : ServiceModel) (shape : Shape) (visited : List String)
        (pfx pp cn bc : Option String) (ar : Bool) (api : Option (String × String × String))
        (mems : List (String × String)) (out : List AwsModel) (v' : List String),
      shape.body = ShapeBody.struct mems →
      visited.contains (typeNameWith (pyStrOpt pfx) shape) = false →
      clazz_model (fuel + 1) model shape visited pfx pp cn bc ar api = .ok (out, v') →
      ∃ nested props,
        goMembers model (pfx.getD "") (pp.getD "")
          (fun s v => clazz_model fuel model s v (some (pfx.getD "")) none none none false none)
          mems (typeNameWith (pyStrOpt pfx) shape :: visited) = .ok (nested, props, v') ∧
        out = nested ++ [AwsModel.mk
          (match cn with
            | some s => if s = "" then typeNameWith (pfx.getD "") shape else s
            | none => typeNameWith (pfx.getD "") shape) props ar bc api]) ∧
    (∀ (fuel : Nat) (svc : String) (sm : ServiceModel) (ep : AwsResotoModel)
        (eps : List AwsResotoModel) (visited : List String) (out : List AwsModel)
        (v' : List String),
      run_specs fuel svc sm (ep :: eps) visited = .ok (out, v') →
      ∃ shape ms v₁ ms₂,
        resolve sm ep.result_shape = some shape ∧
        clazz_model fuel sm shape visited ep.pfx ep.prop_pfx ep.name ep.base true
          (some (svc, ep.api_action, ep.result_property)) = .ok (ms, v₁) ∧
        run_specs fuel svc sm eps v₁ = .ok (ms₂, v') ∧
        out = ms ++ ms₂) ∧
    (∀ (fuel : Nat) (svc : String) (sm : ServiceModel) (eps : List AwsResotoModel)
        (services : List (String × ServiceModel × List AwsResotoModel))
        (visited : List String) (out : List AwsModel) (v' : List String),
      all_models fuel ((svc, sm, eps) :: services) visited = .ok (out, v') →
      ∃ ms v₁ ms₂,
        run_specs fuel svc sm eps visited = .ok (ms, v₁) ∧
        all_models fuel services v₁ = .ok (ms₂, v') ∧
        out = ms ++ ms₂) := by
  refine ⟨?_, ?_, ?_⟩
  · intro fuel model shape visited pfx pp cn bc ar api mems out v' hb hnv hrun
    simp only [clazz_model, hnv, Bool.false_eq_true, if_false, hb] at hrun
    rw [except_bind_ok] at hrun
    obtain ⟨⟨nested, props, v₂⟩, hg, hout⟩ := hrun
    simp only [Except.ok.injEq, Prod.mk.injEq] at hout
    obtain ⟨h1, h2⟩ := hout
    exact ⟨nested, props, by rw [hg, h2], h1.symm⟩
  · intro fuel svc sm ep eps visited out v' hrun
    simp only [run_specs] at hrun
    cases hres : resolve sm ep.result_shape with
    | none => rw [hres] at hrun; simp [Bind.bind, Except.bind] at hrun
    | some shape =>
      rw [hres] at hrun
      rw [except_bind_ok] at hrun
      obtain ⟨shape', hok, hrun⟩ := hrun
      injection hok with hok
      subst hok
      rw [except_bind_ok] at hrun
      obtain ⟨⟨ms, v₁⟩, hcm, hrun⟩ := hrun
      rw [except_bind_ok] at hrun
      obtain ⟨⟨ms₂, v₂⟩, hrs, hout⟩ := hrun
      simp only [Except.ok.injEq, Prod.mk.injEq] at hout
      obtain ⟨h1, h2⟩ := hout
      exact ⟨shape, ms, v₁, ms₂, rfl, hcm, by rw [hrs, h2], h1.symm⟩
  · intro fuel svc sm eps services visited out v' hrun
    simp only [all_models] at hrun
    rw [except_bind_ok] at hrun
    obtain ⟨⟨ms, v₁⟩, hrs, hrun⟩ := hrun
    rw [except_bind_ok] at hrun
    obtain ⟨⟨ms₂, v₂⟩, hall, hout⟩ := hrun
    simp only [Except.ok.injEq, Prod.mk.injEq] at hout
    obtain ⟨h1, h2⟩ := hout
    exact ⟨ms, v₁, ms₂, hrs, by rw [hall, h2], h1.symm⟩

/-- Witness for C7 at a concrete schema: a root record with a nested record
member, compiled through `all_models`. -/
theorem nested_models_first_witness :
    (∃ nested props,
      goMembers [⟨"S", "", .struct [("Child", "T")]⟩, ⟨"T", "", .struct [("X", "Str"), ("Y", "Str")]⟩,
          ⟨"Str", "", .leaf "string"⟩] "" ""
        (fun s v => clazz_model 3 [⟨"S", "", .struct [("Child", "T")]⟩,
          ⟨"T", "", .struct [("X", "Str"), ("Y", "Str")]⟩, ⟨"Str", "", .leaf "string"⟩] s v
          (some "") none none none false none)
        [("Child", "T")] ["AwsS"] = .ok (nested, props, ["AwsT", "AwsS"]) ∧
      [AwsModel.mk "AwsT" [AwsProperty.mk "x" (.inl "X") "str" "" false false none none,
          AwsProperty.mk "y" (.inl "Y") "str" "" false false none none] false none none,
        AwsModel.mk "AwsS" [AwsProperty.mk "child" (.inl "Child") "AwsT" "" false true none none]
          false none none] = nested ++ [AwsModel.mk "AwsS" props false none none]) ∧
    (∃ shape ms v₁ ms₂,
      resolve [⟨"R", "", .struct [("Id", "Str2")]⟩, ⟨"Str2", "", .leaf "string"⟩] "R" =
        some shape ∧
      clazz_model 3 [⟨"R", "", .struct [("Id", "Str2")]⟩, ⟨"Str2", "", .leaf "string"⟩]
        shape [] (some "") none none none true (some ("svc", "act", "res")) = .ok (ms, v₁) ∧
      run_specs 3 "svc" [⟨"R", "", .struct [("Id", "Str2")]⟩, ⟨"Str2", "", .leaf "string"⟩]
        [] v₁ = .ok (ms₂, ["AwsR"]) ∧
      [AwsModel.mk "AwsR" [AwsProperty.mk "id" (.inl "Id") "str" "" false false none none]
          true none (some ("svc", "act", "res"))] = ms ++ ms₂) ∧
    (∃ ms v₁ ms₂,
      run_specs 3 "svc" [⟨"R", "", .struct [("Id", "Str2")]⟩, ⟨"Str2", "", .leaf "string"⟩]
        [⟨"act", "res", "R", some "", none, none, none⟩] [] = .ok (ms, v₁) ∧
      all_models 3 [] v₁ = .ok (ms₂, ["AwsR"]) ∧
      [AwsModel.mk "AwsR" [AwsProperty.mk "id" (.inl "Id") "str" "" false false none none]
          true none (some ("svc", "act", "res"))] = ms ++ ms₂) :=
  ⟨nested_models_first.1 3 [⟨"S", "", .struct [("Child", "T")]⟩,
      ⟨"T", "", .struct [("X", "Str"), ("Y", "Str")]⟩, ⟨"Str", "", .leaf "string"⟩]
      ⟨"S", "", .struct [("Child", "T")]⟩ [] (some "") none none none
      false none [("Child", "T")] _ _ rfl rfl rfl,
    nested_models_first.2.1 3 "svc" _ ⟨"act", "res", "R", some "", none, none, none⟩ [] [] _ _ rfl,
    nested_models_first.2.2 3 "svc" _ [⟨"act", "res", "R", some "", none, none, none⟩] [] [] _ _ rfl⟩

/-- C5: a record member whose shape is a map aborts with the assertion
error exactly when the map's key shape does not normalize to a scalar; when
the key normalizes, the dispatch recursively compiles the value shape and
emits one non-array field typed `Dict[key, value-type]`, introducing no
error of its own (the run continues with the remaining members).
Conversely, whenever a run aborts with the assertion error, the named key
belongs to some map shape of the schema and does not normalize. -/
theorem map_member_key_contract :
    (∀ (model : ServiceModel) (p pp : String)
        (recur : Shape → List String → Except GenError (List AwsModel × List String))
        (name msn : String) (rest : List (String × String)) (visited : List String)
        (prop_shape key value : Shape) (kn vn : String),
      ignore_props.contains (to_snake name) = false →
      resolve model msn = some prop_shape →
      simple_shape prop_shape = none →
      prop_shape.body = ShapeBody.map kn vn →
      resolve model kn = some key →
      resolve model vn = some value →
      simple_shape key = none →
      goMembers model p pp recur ((name, msn) :: rest) visited =
        .error (.invalidMapKey key.name)) ∧
    (∀ (model : ServiceModel) (p pp : String)
        (recur : Shape → List String → Except GenError (List AwsModel × List String))
        (name msn : String) (rest : List (String × String)) (visited : List String)
        (prop_shape key value : Shape) (kn vn kt : String),
      ignore_props.contains (to_snake name) = false →
      resolve model msn = some prop_shape →
      simple_shape prop_shape = none →
      prop_shape.body = ShapeBody.map kn vn →
      resolve model kn = some key →
      resolve model vn = some value →
      simple_shape key = some kt →
      goMembers model p pp recur ((name, msn) :: rest) visited =
        (recur value visited >>= fun x =>
          goMembers model p pp recur rest x.2 >>= fun y =>
          .ok (x.1 ++ y.1, AwsProperty.mk (pp ++ to_snake name) (.inl name)
            ("Dict[" ++ kt ++ ", " ++ typeNameWith p value ++ "]")
            prop_shape.documentation false false none none :: y.2.1, y.2.2))) ∧
    (∀ (fuel : Nat) (model : ServiceModel) (shape : Shape) (visited : List String)
        (pfx pp cn bc : Option String) (ar : Bool)
        (api : Option (String × String × String)) (n : String),
      clazz_model fuel model shape visited pfx pp cn bc ar api =
        .error (.invalidMapKey n) →
      badMapKeyIn model n) := by
  refine ⟨?_, ?_, clazz_model_invalidKey_inv⟩
  · intro model p pp recur name msn rest visited prop_shape key value kn vn
      hig hres hss hb hk hv hkn
    simp only [goMembers, hig, hres, hss, hb, hk, hv, hkn, Bool.false_eq_true, if_false]
  · intro model p pp recur name msn rest visited prop_shape key value kn vn kt
      hig hres hss hb hk hv hkt
    simp only [goMembers, hig, hres, hss, hb, hk, hv, hkt, Bool.false_eq_true, if_false]

/-- Witness for C5: one map member with a structure-shaped (non-scalar) key
aborting, and one with a string key compiling through. -/
theorem map_member_key_contract_witness :
    goMembers [⟨"M", "", .map "K" "Str"⟩, ⟨"K", "", .struct [("A", "Str"), ("B", "Str")]⟩,
        ⟨"Str", "", .leaf "string"⟩] "" ""
      (fun _ v => .ok ([], v)) [("Data", "M")] [] =
      .error (.invalidMapKey "K") ∧
    goMembers [⟨"M2", "", .map "Str" "Str"⟩, ⟨"Str", "", .leaf "string"⟩] "" ""
      (fun _ v => .ok ([], v)) [("Data", "M2")] [] =
      ((fun (_ : Shape) (v : List String) =>
            (.ok ([], v) : Except GenError (List AwsModel × List String)))
          ⟨"Str", "", .leaf "string"⟩ [] >>= fun x =>
        goMembers [⟨"M2", "", .map "Str" "Str"⟩, ⟨"Str", "", .leaf "string"⟩] "" ""
          (fun _ v => .ok ([], v)) [] x.2 >>= fun y =>
        .ok (x.1 ++ y.1, AwsProperty.mk "data" (.inl "Data")
          "Dict[str, str]" "" false false none none :: y.2.1, y.2.2)) ∧
    badMapKeyIn [⟨"S", "", .struct [("Data", "M")]⟩, ⟨"M", "", .map "K" "Str"⟩,
      ⟨"K", "", .struct [("A", "Str"), ("B", "Str")]⟩, ⟨"Str", "", .leaf "string"⟩] "K" :=
  ⟨map_member_key_contract.1
      [⟨"M", "", .map "K" "Str"⟩, ⟨"K", "", .struct [("A", "Str"), ("B", "Str")]⟩,
        ⟨"Str", "", .leaf "string"⟩] "" ""
      (fun _ v => .ok ([], v)) "Data" "M" [] []
      ⟨"M", "", .map "K" "Str"⟩ ⟨"K", "", .struct [("A", "Str"), ("B", "Str")]⟩
      ⟨"Str", "", .leaf "string"⟩ "K" "Str" rfl rfl rfl rfl rfl rfl rfl,
    map_member_key_contract.2.1
      [⟨"M2", "", .map "Str" "Str"⟩, ⟨"Str", "", .leaf "string"⟩] "" ""
      (fun _ v => .ok ([], v)) "Data" "M2" [] []
      ⟨"M2", "", .map "Str" "Str"⟩ ⟨"Str", "", .leaf "string"⟩
      ⟨"Str", "", .leaf "string"⟩ "Str" "Str" "str" rfl rfl rfl rfl rfl rfl rfl,
    map_member_key_contract.2.2 3
      [⟨"S", "", .struct [("Data", "M")]⟩, ⟨"M", "", .map "K" "Str"⟩,
        ⟨"K", "", .struct [("A", "Str"), ("B", "Str")]⟩, ⟨"Str", "", .leaf "string"⟩]
      ⟨"S", "", .struct [("Data", "M")]⟩ [] (some "") none none none false none "K" rfl⟩

/-- C3 counterexample: `W` is a record with exactly one scalar member, yet
when referenced as a map value it is compiled into its own Model (`AwsW`)
and the referencing field keeps the single-segment map extraction — the map
branch never consults `complex_simple_shape`. -/
theorem collapse_map_value_cex :
    complex_simple_shape
      [⟨"S", "", .struct [("M", "M")]⟩, ⟨"W", "", .struct [("X", "Str")]⟩,
        ⟨"M", "", .map "Str" "W"⟩, ⟨"Str", "", .leaf "string"⟩]
      ⟨"W", "", .struct [("X", "Str")]⟩ = some ("X", "str") ∧
    clazz_model 6
      [⟨"S", "", .struct [("M", "M")]⟩, ⟨"W", "", .struct [("X", "Str")]⟩,
        ⟨"M", "", .map "Str" "W"⟩, ⟨"Str", "", .leaf "string"⟩]
      ⟨"S", "", .struct [("M", "M")]⟩ [] (some "") none none none false none =
      .ok ([AwsModel.mk "AwsW"
              [AwsProperty.mk "x" (.inl "X") "str" "" false false none none] false none none,
            AwsModel.mk "AwsS"
              [AwsProperty.mk "m" (.inl "M") "Dict[str, AwsW]" "" false false none none]
              false none none],
           ["AwsW", "AwsS"]) :=
  ⟨rfl, rfl⟩

/-- C3 (amended): a record with exactly one scalar member, referenced as a
direct structure member or as a list element, generates no Model at that
site; the referencing field is a plain scalar (resp. array-of-scalar with a
two-level extractor) whose source path has the two segments
`[member-of-parent, inner-member-name]`. (As a map value such a record is
compiled as a full Model instead, see the counterexample.) -/
theorem collapse_correctness :
    (∀ (model : ServiceModel) (p pp : String)
        (recur : Shape → List String → Except GenError (List AwsModel × List String))
        (name msn : String) (rest : List (String × String)) (visited : List String)
        (prop_shape ps : Shape) (pn psn pt : String),
      ignore_props.contains (to_snake name) = false →
      resolve model msn = some prop_shape →
      simple_shape prop_shape = none →
      prop_shape.body = ShapeBody.struct [(pn, psn)] →
      resolve model psn = some ps →
      simple_shape ps = some pt →
      goMembers model p pp recur ((name, msn) :: rest) visited =
        (goMembers model p pp recur rest visited >>= fun y =>
          .ok (y.1, AwsProperty.mk (pp ++ to_snake name) (.inr [name, pn]) pt
            prop_shape.documentation false false none none :: y.2.1, y.2.2))) ∧
    (∀ (model : ServiceModel) (p pp : String)
        (recur : Shape → List String → Except GenError (List AwsModel × List String))
        (name msn : String) (rest : List (String × String)) (visited : List String)
        (lst inner ps : Shape) (imn pn psn pt : String),
      ignore_props.contains (to_snake name) = false →
      resolve model msn = some lst →
      simple_shape lst = none →
      lst.body = ShapeBody.list imn →
      resolve model imn = some inner →
      simple_shape inner = none →
      inner.body = ShapeBody.struct [(pn, psn)] →
      resolve model psn = some ps →
      simple_shape ps = some pt →
      goMembers model p pp recur ((name, msn) :: rest) visited =
        (goMembers model p pp recur rest visited >>= fun y =>
          .ok (y.1, AwsProperty.mk (pp ++ to_snake name) (.inr [name, pn]) pt
            lst.documentation true false none
            (some ("S(\"" ++ name ++ "\", default=[]) >> ForallBend(S(\""
              ++ pn ++ "\"))")) :: y.2.1, y.2.2))) := by
  constructor
  · intro model p pp recur name msn rest visited prop_shape ps pn psn pt
      hig hres hss hb hps hpt
    have hcs : complex_simple_shape model prop_shape = some (pn, pt) := by
      simp [complex_simple_shape, hb, hps, hpt]
    simp only [goMembers, hig, hres, hss, hb, hcs, Bool.false_eq_true, if_false]
  · intro model p pp recur name msn rest visited lst inner ps imn pn psn pt
      hig hres hss hb hin hsi hbi hps hpt
    have hcs : complex_simple_shape model inner = some (pn, pt) := by
      simp [complex_simple_shape, hbi, hps, hpt]
    simp only [goMembers, hig, hres, hss, hb, hin, hsi, hcs, Bool.false_eq_true, if_false]

/-- Witness for C3 (amended): the `Owner`-style collapsible record as a
direct member and as a list element. -/
theorem collapse_correctness_witness :
    goMembers [⟨"O", "", .struct [("N", "Str")]⟩, ⟨"Str", "", .leaf "string"⟩] "" ""
      (fun _ v => .ok ([], v)) [("Owner", "O")] [] =
      (goMembers [⟨"O", "", .struct [("N", "Str")]⟩, ⟨"Str", "", .leaf "string"⟩] "" ""
        (fun _ v => .ok ([], v)) [] [] >>= fun y =>
        .ok (y.1, AwsProperty.mk "owner" (.inr ["Owner", "N"]) "str"
          "" false false none none :: y.2.1, y.2.2)) ∧
    goMembers [⟨"L", "", .list "O"⟩, ⟨"O", "", .struct [("N", "Str")]⟩,
        ⟨"Str", "", .leaf "string"⟩] "" ""
      (fun _ v => .ok ([], v)) [("Owners", "L")] [] =
      (goMembers [⟨"L", "", .list "O"⟩, ⟨"O", "", .struct [("N", "Str")]⟩,
          ⟨"Str", "", .leaf "string"⟩] "" ""
        (fun _ v => .ok ([], v)) [] [] >>= fun y =>
        .ok (y.1, AwsProperty.mk "owners" (.inr ["Owners", "N"]) "str"
          "" true false none
          (some "S(\"Owners\", default=[]) >> ForallBend(S(\"N\"))") :: y.2.1, y.2.2)) :=
  ⟨collapse_correctness.1
      [⟨"O", "", .struct [("N", "Str")]⟩, ⟨"Str", "", .leaf "string"⟩] "" ""
      (fun _ v => .ok ([], v)) "Owner" "O" [] []
      ⟨"O", "", .struct [("N", "Str")]⟩ ⟨"Str", "", .leaf "string"⟩ "N" "Str" "str"
      rfl rfl rfl rfl rfl rfl,
    collapse_correctness.2
      [⟨"L", "", .list "O"⟩, ⟨"O", "", .struct [("N", "Str")]⟩, ⟨"Str", "", .leaf "string"⟩]
      "" "" (fun _ v => .ok ([], v)) "Owners" "L" [] []
      ⟨"L", "", .list "O"⟩ ⟨"O", "", .struct [("N", "Str")]⟩ ⟨"Str", "", .leaf "string"⟩
      "O" "N" "Str" "str" rfl rfl rfl rfl rfl rfl rfl rfl rfl⟩

/-- C6: a non-ignored record member whose shape neither normalizes to a
scalar nor is a list, map or record raises the unsupported-shape error
immediately, and the error aborts the whole invocation with no result list
(so no partial Model of the record being compiled survives); conversely,
whenever a run aborts with the unsupported-shape error, the named shape is
a non-simple leaf of the schema — members of the four supported kinds never
trigger it. -/
theorem unsupported_shape_contract :
    (∀ (model : ServiceModel) (p pp : String)
        (recur : Shape → List String → Except GenError (List AwsModel × List String))
        (name msn : String) (rest : List (String × String)) (visited : List String)
        (prop_shape : Shape) (t : String),
      ignore_props.contains (to_snake name) = false →
      resolve model msn = some prop_shape →
      simple_shape prop_shape = none →
      prop_shape.body = ShapeBody.leaf t →
      goMembers model p pp recur ((name, msn) :: rest) visited =
        .error (.unsupportedShape prop_shape)) ∧
    (∀ (fuel : Nat) (model : ServiceModel) (shape : Shape) (visited : List String)
        (pfx pp cn bc : Option String) (ar : Bool)
        (api : Option (String × String × String)) (sh : Shape),
      clazz_model fuel model shape visited pfx pp cn bc ar api =
        .error (.unsupportedShape sh) →
      unsupportedIn model sh) := by
  constructor
  · intro model p pp recur name msn rest visited prop_shape t hig hres hss hb
    simp only [goMembers, hig, hres, hss, hb, Bool.false_eq_true, if_false]
  · exact clazz_model_unsupported_inv

/-- Witness for C6: a record with a blob member raises, and the raised shape
is the non-simple blob leaf. -/
theorem unsupported_shape_contract_witness :
    goMembers [⟨"S", "", .struct [("B", "Blob")]⟩, ⟨"Blob", "", .leaf "blob"⟩] "" ""
      (fun _ v => .ok ([], v)) [("B", "Blob")] [] =
      .error (.unsupportedShape ⟨"Blob", "", .leaf "blob"⟩) ∧
    unsupportedIn [⟨"S", "", .struct [("B", "Blob")]⟩, ⟨"Blob", "", .leaf "blob"⟩]
      ⟨"Blob", "", .leaf "blob"⟩ :=
  ⟨unsupported_shape_contract.1
      [⟨"S", "", .struct [("B", "Blob")]⟩, ⟨"Blob", "", .leaf "blob"⟩] "" ""
      (fun _ v => .ok ([], v)) "B" "Blob" [] []
      ⟨"Blob", "", .leaf "blob"⟩ "blob" rfl rfl rfl rfl,
    unsupported_shape_contract.2 3
      [⟨"S", "", .struct [("B", "Blob")]⟩, ⟨"Blob", "", .leaf "blob"⟩]
      ⟨"S", "", .struct [("B", "Blob")]⟩ [] (some "") none none none false none
      ⟨"Blob", "", .leaf "blob"⟩ rfl⟩

/-- C8: `clazz_model` terminates on every finite schema graph, including
shapes reaching themselves through list or map members: fuel bounded by the
number of not-yet-visited candidate type names (plus the two top frames)
is never exhausted, because a recursive call either returns at the
`visited` check or first adds a fresh name drawn from that finite pool. -/
theorem clazz_model_terminates (model : ServiceModel) (shape : Shape)
    (visited : List String) (pfx pp cn bc : Option String) (ar : Bool)
    (api : Option (String × String × String)) :
    isOutOfFuel (clazz_model (missingCount model (pfx.getD "") visited + 2)
      model shape visited pfx pp cn bc ar api) = false := by
  have hbound : ∀ v : List String,
      (typeNameWith (pyStrOpt pfx) shape :: visited) ⊆ v →
      missingCount model (pfx.getD "") v < missingCount model (pfx.getD "") visited + 1 := by
    intro v hsub
    have h1 := @missing_anti model (pfx.getD "")
      (typeNameWith (pyStrOpt pfx) shape :: visited) v hsub
    have h2 := @missing_anti model (pfx.getD "") visited
      (typeNameWith (pyStrOpt pfx) shape :: visited)
      (fun _ hx => List.mem_cons_of_mem _ hx)
    omega
  have hne : clazz_model (missingCount model (pfx.getD "") visited + 2)
      model shape visited pfx pp cn bc ar api ≠ .error .outOfFuel := by
    intro h
    rw [show missingCount model (pfx.getD "") visited + 2 =
      (missingCount model (pfx.getD "") visited + 1) + 1 from rfl] at h
    simp only [clazz_model] at h
    split at h
    · simp at h
    · split at h
      · rw [except_bind_err] at h
        rcases h with h | ⟨a, _, ha⟩
        · exact goMembers_ne_outOfFuel model _ _ _
            (fun s v out ho => clazz_model_visited_mono _ model s v _ none none none
              false none out ho)
            (typeNameWith (pyStrOpt pfx) shape :: visited)
            (fun s v hsm hsub hf => clazz_model_sufficient_fuel _ model (pfx.getD "")
              s v none none none false none hsm (hbound v hsub) hf)
            _ _ (fun _ hx => hx) h
        · simp at ha
      · simp at h
  cases hr : clazz_model (missingCount model (pfx.getD "") visited + 2)
      model shape visited pfx pp cn bc ar api with
  | ok a => rfl
  | error e =>
    cases e with
    | outOfFuel => exact absurd hr hne
    | unsupportedShape s => rfl
    | invalidMapKey n => rfl
    | unresolvedShape n => rfl

/-- C1 counterexample: a record member that is a list of lists. The emitted
field `xs` is `is_complex` with `value_type` `AwsL`, yet no Model named
`AwsL` exists anywhere in the final collection (the inner list shape is
visited but, being no record, produces nothing) — a dangling reference. -/
theorem dedup_no_dangling_cex :
    all_models 6 [("svc",
      [⟨"S", "", .struct [("Xs", "LL")]⟩, ⟨"LL", "", .list "L"⟩,
       ⟨"L", "", .list "Str"⟩, ⟨"Str", "", .leaf "string"⟩],
      [⟨"act", "res", "S", some "", none, none, none⟩])] [] =
      .ok ([AwsModel.mk "AwsS"
        [AwsProperty.mk "xs" (.inl "Xs") "AwsL" "" true true none none]
        true none (some ("svc", "act", "res"))], ["AwsL", "AwsS"]) ∧
    PropRef (AwsProperty.mk "xs" (.inl "Xs") "AwsL" "" true true none none) "AwsL" ∧
    (([AwsModel.mk "AwsS"
        [AwsProperty.mk "xs" (.inl "Xs") "AwsL" "" true true none none]
        true none (some ("svc", "act", "res"))].filter
        (fun mdl => mdl.name == "AwsL")).length = 0) :=
  ⟨rfl, ⟨rfl, rfl⟩, rfl⟩

/-- C1 (amended): over an `all_models` run (shared visited set, flat
accumulation) whose schemas are regular — list elements that are neither
scalar nor collapsible are records, and map values are scalar or records —
and whose specs carry no class-name override, an explicit prefix string and
a scalar-or-record root shape, the final collection contains no two Models
with the same name, and every field reference to a generated model name
(`is_complex` fields, array-of-model fields and map value types) resolves
to exactly one Model with exactly that name. -/
theorem dedup_no_dangling (fuel : Nat)
    (services : List (String × ServiceModel × List AwsResotoModel))
    (out : List AwsModel) (v' : List String)
    (hgood : ∀ svc ∈ services, regularModel svc.2.1 ∧ ∀ ep ∈ svc.2.2, goodSpec svc.2.1 ep)
    (hrun : all_models fuel services [] = .ok (out, v')) :
    (out.map AwsModel.name).Nodup ∧
    ∀ m ∈ out, ∀ pr ∈ m.props, ∀ T, PropRef pr T →
      (out.filter (fun mdl => mdl.name == T)).length = 1 := by
  have hInv : RunInv v' ([] ++ out) :=
    all_models_inv fuel services [] [] out v' hgood hrun RunInv.empty
  rw [List.nil_append] at hInv
  refine ⟨hInv.nodup, ?_⟩
  intro m hm pr hpr T hT
  have hTv : T ∈ v' := hInv.refs m hm pr hpr T hT
  obtain ⟨m2, hm2, hname⟩ := hInv.aws T hTv hT.2
  exact filter_name_length_one hInv.nodup hm2 hname

/-- Witness for C1 (amended) at a concrete one-service run. -/
theorem dedup_no_dangling_witness :
    (([AwsModel.mk "AwsR" [AwsProperty.mk "id" (.inl "Id") "str" "" false false none none]
        true none (some ("svc", "act", "res"))].map AwsModel.name).Nodup) ∧
    (∀ m ∈ [AwsModel.mk "AwsR"
        [AwsProperty.mk "id" (.inl "Id") "str" "" false false none none]
        true none (some ("svc", "act", "res"))],
      ∀ pr ∈ m.props, ∀ T, PropRef pr T →
        (([AwsModel.mk "AwsR"
            [AwsProperty.mk "id" (.inl "Id") "str" "" false false none none]
            true none (some ("svc", "act", "res"))].filter
          (fun mdl => mdl.name == T)).length = 1)) :=
  dedup_no_dangling 3
    [("svc", [⟨"R", "", .struct [("Id", "Str2")]⟩, ⟨"Str2", "", .leaf "string"⟩],
      [⟨"act", "res", "R", some "", none, none, none⟩])]
    [AwsModel.mk "AwsR" [AwsProperty.mk "id" (.inl "Id") "str" "" false false none none]
      true none (some ("svc", "act", "res"))]
    ["AwsR"]
    (by
      intro svc hsvc
      rcases List.mem_cons.mp hsvc with rfl | hempty
      · constructor
        · intro s hs
          constructor
          · intro mn hb inner _ _ _
            rcases List.mem_cons.mp hs with rfl | hs2
            · cases hb
            · rcases List.mem_cons.mp hs2 with rfl | hs3
              · cases hb
              · cases hs3
          · intro kn vn hb value _ _
            rcases List.mem_cons.mp hs with rfl | hs2
            · cases hb
            · rcases List.mem_cons.mp hs2 with rfl | hs3
              · cases hb
              · cases hs3
        · intro ep hep
          rcases List.mem_cons.mp hep with rfl | hempty2
          · exact ⟨rfl, ⟨"", rfl⟩,
              ⟨⟨"R", "", .struct [("Id", "Str2")]⟩, rfl, Or.inr ⟨[("Id", "Str2")], rfl⟩⟩⟩
          · cases hempty2
      · cases hempty)
    rfl

/-- Witness for C2 (amended) at a concrete root model. -/
theorem root_fixed_fields_six_witness :
    base_mapping.map Prod.fst = ["id", "tags", "name", "ctime", "mtime", "atime"] ∧
    ∃ pre post, (AwsModel.mk "AwsAb" [] true none none).to_class = pre ++
      (String.intercalate ",\n"
          (base_mapping.map (fun kv => "        \"" ++ kv.1 ++ "\": " ++ kv.2)) ++ ",\n"
        ++ String.intercalate ",\n"
            ((AwsModel.mk "AwsAb" [] true none none).props.map (fun pr => "        " ++ pr.mapping)))
      ++ post :=
  root_fixed_fields_six (AwsModel.mk "AwsAb" [] true none none) rfl rfl

end ModelGen
